import Mathlib

/-!
Verification development for `cardiomyocytes_helper_functions.py` (v2).

Each Python function that the claims touch is shallowly embedded as a Lean
definition.  Machine floats on angle values are modelled by real numbers,
pixel grids by lists of lists, and external library primitives
(scikit-image morphology, `np.interp`, `expand_labels`, K-means) are
modelled from their documented contracts, which the module's specification
explicitly treats as black boxes.
-/

namespace Cardio

/-! ### Perpendicularity Scorer: `calculate_perpendicular_index`

Source (v2/cardiomyocytes_helper_functions.py, lines 342-357):

    angle_between_lines = abs(alpha - beta)
    if angle_between_lines > math.pi:
        angle_between_lines = angle_between_lines - math.pi
    if angle_between_lines > (math.pi/2):
        angle_between_lines = math.pi/2 - (angle_between_lines - math.pi/2)
    M = angle_between_lines/(math.pi/2)

Floats are modelled by real numbers, `math.pi` by `Real.pi`. -/

noncomputable def calculate_perpendicular_index (alpha beta : ℝ) : ℝ :=
  let d0 : ℝ := |alpha - beta|
  let d1 : ℝ := if d0 > Real.pi then d0 - Real.pi else d0
  let d2 : ℝ := if d1 > Real.pi / 2 then Real.pi / 2 - (d1 - Real.pi / 2) else d1
  d2 / (Real.pi / 2)

end Cardio

namespace Cardio

/-- Helper: the scorer unfolded on an absolute difference that is already
known, phrased without `abs`. -/
theorem cpi_eval (alpha beta d0 : ℝ) (h : |alpha - beta| = d0) :
    calculate_perpendicular_index alpha beta =
      (if (if d0 > Real.pi then d0 - Real.pi else d0) > Real.pi / 2 then
        Real.pi / 2 - ((if d0 > Real.pi then d0 - Real.pi else d0) - Real.pi / 2)
       else (if d0 > Real.pi then d0 - Real.pi else d0)) / (Real.pi / 2) := by
  unfold calculate_perpendicular_index
  rw [h]

/-- Helper: value of the scorer at `(0, 3π)`, which falls outside `[0, 1]`. -/
theorem cpi_zero_three_pi : calculate_perpendicular_index 0 (3 * Real.pi) = -2 := by
  have hpi := Real.pi_pos
  have habs : |(0 : ℝ) - 3 * Real.pi| = 3 * Real.pi := by
    rw [abs_sub_comm, sub_zero, abs_of_nonneg (by positivity)]
  rw [cpi_eval _ _ _ habs]
  split_ifs with h1 h2 <;> try linarith
  have h2 : Real.pi / 2 ≠ 0 := by positivity
  field_simp
  ring

/-- C3 (claim as stated is false): the scorer applied to the real inputs
`α = 0`, `β = 3π` returns `-2`, which is not in `[0, 1]`.  The single
`if d > π then d - π` fold of the source only subtracts `π` once, so large
angular differences escape the claimed range. -/
theorem C3_counterexample :
    calculate_perpendicular_index 0 (3 * Real.pi) = -2 ∧
      ¬ (0 ≤ calculate_perpendicular_index 0 (3 * Real.pi)) := by
  refine ⟨cpi_zero_three_pi, ?_⟩
  rw [cpi_zero_three_pi]
  norm_num

/-- C3 (amended): for all real `α, β` with `|α - β| ≤ 2π`, the scorer
returns a value in `[0, 1]`; moreover `score(0,0) = 0` and
`score(0, π/2) = 1`. -/
theorem C3_scorer_range_amended :
    (∀ a b : ℝ, |a - b| ≤ 2 * Real.pi →
      0 ≤ calculate_perpendicular_index a b ∧ calculate_perpendicular_index a b ≤ 1) ∧
    calculate_perpendicular_index 0 0 = 0 ∧
    calculate_perpendicular_index 0 (Real.pi / 2) = 1 := by
  have hpi := Real.pi_pos
  have hhalf : (0 : ℝ) < Real.pi / 2 := by positivity
  refine ⟨?_, ?_, ?_⟩
  · intro a b hle
    have h0 : 0 ≤ |a - b| := abs_nonneg _
    rw [cpi_eval a b |a - b| rfl]
    constructor
    · apply div_nonneg _ (le_of_lt hhalf)
      split_ifs <;> linarith
    · rw [div_le_one hhalf]
      split_ifs <;> linarith
  · have habs : |(0 : ℝ) - 0| = 0 := by simp
    rw [cpi_eval _ _ _ habs]
    split_ifs <;> first | linarith | simp
  · have habs : |(0 : ℝ) - Real.pi / 2| = Real.pi / 2 := by
      rw [abs_sub_comm, sub_zero, abs_of_nonneg (le_of_lt hhalf)]
    rw [cpi_eval _ _ _ habs]
    split_ifs <;> first | linarith | (exact div_self (ne_of_gt hhalf))

/-- Witness for `C3_scorer_range_amended` at the concrete input `(0, π/2)`. -/
theorem C3_scorer_range_witness :
    0 ≤ calculate_perpendicular_index 0 (Real.pi / 2) ∧
      calculate_perpendicular_index 0 (Real.pi / 2) ≤ 1 :=
  C3_scorer_range_amended.1 0 (Real.pi / 2) (by
    have hpi := Real.pi_pos
    have : |(0 : ℝ) - Real.pi / 2| = Real.pi / 2 := by
      rw [abs_sub_comm, sub_zero, abs_of_nonneg (by positivity)]
    rw [this]; linarith)

/-- C4 (claim as stated is false): period-`π` invariance in the first
argument fails for real inputs at `α = 0`, `β = 5π/2`:
`score(0 + π, 5π/2) = 1` while `score(0, 5π/2) = -1`. -/
theorem C4_counterexample :
    calculate_perpendicular_index (0 + Real.pi) (5 * Real.pi / 2) ≠
      calculate_perpendicular_index 0 (5 * Real.pi / 2) := by
  have hpi := Real.pi_pos
  have h1 : calculate_perpendicular_index (0 + Real.pi) (5 * Real.pi / 2) = 1 := by
    have habs : |(0 + Real.pi) - 5 * Real.pi / 2| = 3 * Real.pi / 2 := by
      rw [abs_sub_comm, abs_of_nonneg (by linarith)]; ring
    rw [cpi_eval _ _ _ habs]
    split_ifs <;> first | (exfalso; linarith) |
      (rw [div_eq_one_iff_eq (by positivity)]; linarith)
  have h2 : calculate_perpendicular_index 0 (5 * Real.pi / 2) = -1 := by
    have habs : |(0 : ℝ) - 5 * Real.pi / 2| = 5 * Real.pi / 2 := by
      rw [abs_sub_comm, sub_zero, abs_of_nonneg (by linarith)]
    rw [cpi_eval _ _ _ habs]
    split_ifs <;> first | (exfalso; linarith) |
      (rw [div_eq_iff (by positivity)]; ring)
  rw [h1, h2]; norm_num

/-- C4 (amended): the scorer is symmetric for all real inputs, satisfies
`score(α, α+π) = score(α, α)` for all real `α`, and is period-`π`
invariant in each argument whenever `|α - β| ≤ π` (full period-`π`
invariance for arbitrary reals fails, see the counterexample). -/
theorem C4_scorer_symmetry_periodicity_amended :
    (∀ a b : ℝ, calculate_perpendicular_index a b = calculate_perpendicular_index b a) ∧
    (∀ a : ℝ, calculate_perpendicular_index a (a + Real.pi) =
      calculate_perpendicular_index a a) ∧
    (∀ a b : ℝ, |a - b| ≤ Real.pi →
      calculate_perpendicular_index (a + Real.pi) b = calculate_perpendicular_index a b) ∧
    (∀ a b : ℝ, |a - b| ≤ Real.pi →
      calculate_perpendicular_index a (b + Real.pi) = calculate_perpendicular_index a b) := by
  have hpi := Real.pi_pos
  have hsym : ∀ a b : ℝ,
      calculate_perpendicular_index a b = calculate_perpendicular_index b a := by
    intro a b
    unfold calculate_perpendicular_index
    rw [abs_sub_comm]
  have hshift : ∀ a b : ℝ, |a - b| ≤ Real.pi →
      calculate_perpendicular_index (a + Real.pi) b = calculate_perpendicular_index a b := by
    intro a b hle
    have hbd := abs_le.mp hle
    have habs1 : |a + Real.pi - b| = (a - b) + Real.pi := by
      rw [show a + Real.pi - b = (a - b) + Real.pi from by ring]
      exact abs_of_nonneg (by linarith [hbd.1])
    rcases abs_cases (a - b) with ⟨he, hs⟩ | ⟨he, hs⟩ <;>
      · rw [cpi_eval _ _ _ habs1, cpi_eval _ _ _ he]
        split_ifs <;> first | (exfalso; linarith) | (congr 1; linarith)
  refine ⟨hsym, ?_, hshift, ?_⟩
  · intro a
    have habs1 : |a - (a + Real.pi)| = Real.pi := by
      rw [abs_sub_comm]
      rw [show a + Real.pi - a = Real.pi by ring]
      exact abs_of_nonneg (by linarith)
    have habs2 : |a - a| = 0 := by simp
    rw [cpi_eval _ _ _ habs1, cpi_eval _ _ _ habs2]
    split_ifs <;> first | (exfalso; linarith) | (congr 1; linarith)
  · intro a b hle
    rw [hsym a (b + Real.pi), hshift b a (by rw [abs_sub_comm]; exact hle),
      hsym b a]

/-! ### Mask Builder: `create_mask_from_shapes`

Source lines 22-58.  The external rasterizers (`polygon2mask`,
`draw.polygon`) are black boxes per the spec, so a polygon is embedded as
its dimensionality flag together with its rasterized filled interior
(already clipped to the image shape).  The accumulator is a uint8 grid, so
additions are taken modulo 256. -/

/-- A polygon as the Mask Builder consumes it: `is3d` records whether the
vertex array has more than two dimensions, `fill` is the rasterized filled
interior produced by the external rasterizer. -/
structure RasterPoly where
  is3d : Bool
  fill : ℕ → ℕ → Bool

/-- Loop state: the uint8 accumulator grid and the current value of the
Python local `mask_single` (`none` before its first assignment). -/
structure MBState where
  mask : ℕ → ℕ → ℕ
  mask_single : Option (ℕ → ℕ → Bool)

/-- One iteration of the source loop (lines 37-50) for polygon index `i`:
in the 3-D branch only the dead local `mask_coord` is assigned, so
`mask_single` keeps its previous value (a `NameError` is raised if it has
none); then the accumulator adds `i+1` on `mask_single` with uint8
wraparound, and every accumulator value exceeding `i+1` is replaced by the
sentinel 255. -/
def mbStep (st : MBState) (ip : ℕ × RasterPoly) : Except String MBState :=
  let ms? := if ip.2.is3d then st.mask_single else some ip.2.fill
  match ms? with
  | none => Except.error "NameError: mask_single referenced before assignment"
  | some ms => Except.ok
      { mask := fun r c =>
          let v := if ms r c then (st.mask r c + (ip.1 + 1)) % 256 else st.mask r c
          if v > ip.1 + 1 then 255 else v
        mask_single := some ms }

/-- Source lines 22-58.  Returns the overlap-aware mask and the
overlap-free mask (sentinel pixels zeroed) as pixel-value functions; the
image shape only fixes the zero grid, clipping being part of the black-box
rasterization inside each polygon's `fill`. -/
def create_mask_from_shapes (vertices_polygons : List RasterPoly) (_im_shape : ℕ × ℕ) :
    Except String ((ℕ → ℕ → ℕ) × (ℕ → ℕ → ℕ)) :=
  (vertices_polygons.enum.foldlM mbStep ⟨fun _ _ => 0, none⟩).map fun st =>
    (st.mask, fun r c => if st.mask r c = 255 then 0 else st.mask r c)

/-- C1 (code bug, failing input): three 2-D polygons whose rasterizations
all cover pixel (0,0).  The claim — and the function's own comment
"regions with any overlap will be higher than i+1" and docstring "It
removes regions of overlap" — require the overlap-aware value 255 and the
overlap-free value 0 there; but the uint8 accumulator wraps: after two
polygons the pixel holds 255, adding the third label gives
(255 + 3) % 256 = 2, which is not above i+1 = 3, so both masks report the
ordinary-looking label 2 (colliding with polygon 1's label). -/
theorem C1_triple_overlap_failing_input :
    (create_mask_from_shapes
        [⟨false, fun _ _ => true⟩, ⟨false, fun _ _ => true⟩, ⟨false, fun _ _ => true⟩]
        (1, 1)).map (fun m => (m.1 0 0, m.2 0 0)) = Except.ok (2, 2) := rfl

/-- C10: in the Mask Builder's 3-D branch the accumulation never uses that
polygon's own rasterization: (i) if the first polygon is 3-D the call fails
with an unbound-variable error; (ii) a 3-D polygon at any later iteration
behaves exactly as a 2-D polygon whose fill is the most recently
rasterized 2-D region `ms` — its own fill `g` is ignored. -/
theorem C10_mask_builder_3d_branch :
    (∀ (g : ℕ → ℕ → Bool) (rest : List RasterPoly) (shape : ℕ × ℕ),
      ∃ e, create_mask_from_shapes (⟨true, g⟩ :: rest) shape = Except.error e) ∧
    (∀ (st : MBState) (i : ℕ) (g ms : ℕ → ℕ → Bool), st.mask_single = some ms →
      mbStep st (i, ⟨true, g⟩) = mbStep st (i, ⟨false, ms⟩)) := by
  constructor
  · intro g rest shape
    exact ⟨_, rfl⟩
  · intro st i g ms h
    simp [mbStep, h]

/-- Witness for `C10_mask_builder_3d_branch` at a concrete state: with the
remembered 2-D fill being the all-true region, a 3-D polygon with all-false
fill at iteration 1 steps exactly as the remembered all-true 2-D region. -/
theorem C10_mask_builder_witness :
    mbStep ⟨fun _ _ => 0, some (fun _ _ => true)⟩ (1, ⟨true, fun _ _ => false⟩) =
      mbStep ⟨fun _ _ => 0, some (fun _ _ => true)⟩ (1, ⟨false, fun _ _ => true⟩) :=
  C10_mask_builder_3d_branch.2 ⟨fun _ _ => 0, some (fun _ _ => true)⟩ 1
    (fun _ _ => false) (fun _ _ => true) rfl

/-! ### Orientation Estimator, vertex mode

Source (lines 131-134 and 163-190).  `np.arctan2 y x` is the external
numpy primitive; it is modelled by the argument of the complex number
`x + i·y`, which has the documented range `(-π, π]` and satisfies
`arctan2 0 0 = 0`. -/

noncomputable def np_arctan2 (y x : ℝ) : ℝ := Complex.arg ⟨x, y⟩

/-- Source:

    def calculate_orientation(point1, point2):
        dx = point2[0] - point1[0]
        dy = point2[1] - point1[1]
        return np.arctan2(dy, dx)
-/
noncomputable def calculate_orientation (point1 point2 : ℝ × ℝ) : ℝ :=
  np_arctan2 (point2.2 - point1.2) (point2.1 - point1.1)

/-- Source `orientations_from_vertices(vert)`: for each `i`, take
`p0 = vert[i]`, `p1 = vert[i+1]` (or `vert[0]` on the last index), swap the
coordinates of both points, and record `calculate_orientation(p1, p0)`. -/
noncomputable def orientations_from_vertices (vert : List (ℝ × ℝ)) : List ℝ :=
  (List.range vert.length).map fun i =>
    let p0 := vert.getD i (0, 0)
    let p1 := if i = vert.length - 1 then vert.getD 0 (0, 0) else vert.getD (i + 1) (0, 0)
    calculate_orientation (p1.2, p1.1) (p0.2, p0.1)

/-- The four axis directions of `np.arctan2`. -/
theorem np_arctan2_one_zero : np_arctan2 0 1 = 0 := by
  unfold np_arctan2
  rw [show (⟨1, 0⟩ : ℂ) = 1 from by apply Complex.ext <;> simp]
  exact Complex.arg_one

theorem np_arctan2_neg_one_zero : np_arctan2 0 (-1) = Real.pi := by
  unfold np_arctan2
  rw [show (⟨-1, 0⟩ : ℂ) = -1 from by apply Complex.ext <;> simp]
  exact Complex.arg_neg_one

theorem np_arctan2_zero_one : np_arctan2 1 0 = Real.pi / 2 := by
  unfold np_arctan2
  rw [show (⟨0, 1⟩ : ℂ) = Complex.I from by apply Complex.ext <;> simp]
  exact Complex.arg_I

theorem np_arctan2_zero_neg_one : np_arctan2 (-1) 0 = -(Real.pi / 2) := by
  unfold np_arctan2
  rw [show (⟨0, -1⟩ : ℂ) = -Complex.I from by apply Complex.ext <;> simp]
  exact Complex.arg_neg_I

/-- An axis-aligned unit square polygon, in (row, col) vertex coordinates. -/
noncomputable def squareVertices : List (ℝ × ℝ) := [(0, 0), (0, 1), (1, 1), (1, 0)]

/-- Helper: the edge angles of the axis-aligned square, computed entry by
entry. -/
theorem square_orientations :
    orientations_from_vertices squareVertices =
      [Real.pi, -(Real.pi / 2), 0, Real.pi / 2] := by
  unfold orientations_from_vertices calculate_orientation squareVertices
  norm_num [List.range_succ]
  refine ⟨?_, ?_, ?_, ?_⟩
  · simpa using np_arctan2_neg_one_zero
  · simpa using np_arctan2_zero_neg_one
  · simpa using np_arctan2_one_zero
  · simpa using np_arctan2_zero_one

/-- C5 (claim as stated is false): for the triangle with vertices
`(0,0), (0,1), (1,1)` the first reported edge angle is `π`, not the
`atan2` of the displacement from vertex 0 to vertex 1 (which is `0`):
the source calls `calculate_orientation(p1, p0)`, i.e. it measures the
displacement from vertex `i+1` back to vertex `i`. -/
theorem C5_counterexample :
    (orientations_from_vertices [((0 : ℝ), 0), (0, 1), (1, 1)]).getD 0 0 ≠
      np_arctan2 ((0 : ℝ) - 0) ((1 : ℝ) - 0) := by
  have hL : (orientations_from_vertices [((0 : ℝ), 0), (0, 1), (1, 1)]).getD 0 0
      = Real.pi := by
    unfold orientations_from_vertices calculate_orientation
    norm_num [List.range_succ]
    simpa using np_arctan2_neg_one_zero
  have hR : np_arctan2 ((0 : ℝ) - 0) ((1 : ℝ) - 0) = 0 := by
    simpa using np_arctan2_one_zero
  rw [hL, hR]
  exact Real.pi_ne_zero

/-- C5 (amended): the vertex-mode estimator returns exactly one angle per
edge in input order, and the angle of edge `i` is `atan2(dy, dx)` of the
displacement from vertex `i+1` (wrapping to vertex 0) back to vertex `i`
on swapped (row,col)→(x,y) coordinates — the reverse of the direction the
claim states.  For the axis-aligned square the four returned orientations
are exactly the set `{0, π/2, π, -π/2}`. -/
theorem C5_orientations_amended :
    (∀ vert : List (ℝ × ℝ), (orientations_from_vertices vert).length = vert.length) ∧
    (∀ (vert : List (ℝ × ℝ)) (i : ℕ), i < vert.length →
      (orientations_from_vertices vert).getD i 0 =
        np_arctan2 ((vert.getD i (0, 0)).1 - (vert.getD ((i + 1) % vert.length) (0, 0)).1)
          ((vert.getD i (0, 0)).2 - (vert.getD ((i + 1) % vert.length) (0, 0)).2)) ∧
    orientations_from_vertices squareVertices = [Real.pi, -(Real.pi / 2), 0, Real.pi / 2] ∧
    (∀ x : ℝ, x ∈ orientations_from_vertices squareVertices ↔
      (x = 0 ∨ x = Real.pi / 2 ∨ x = Real.pi ∨ x = -(Real.pi / 2))) := by
  refine ⟨?_, ?_, square_orientations, ?_⟩
  · intro vert
    unfold orientations_from_vertices
    simp
  · intro vert i hi
    unfold orientations_from_vertices calculate_orientation
    rw [List.getD_eq_getElem?_getD, List.getElem?_map, List.getElem?_range hi]
    have hwrap : (if i = vert.length - 1 then vert.getD 0 (0, 0)
        else vert.getD (i + 1) (0, 0)) = vert.getD ((i + 1) % vert.length) (0, 0) := by
      by_cases h : i = vert.length - 1
      · rw [if_pos h]
        have : i + 1 = vert.length := by omega
        rw [this, Nat.mod_self]
      · rw [if_neg h]
        have : i + 1 < vert.length := by omega
        rw [Nat.mod_eq_of_lt this]
    simp only [Option.map_some', Option.getD_some]
    rw [hwrap]
  · intro x
    rw [square_orientations]
    simp only [List.mem_cons, List.not_mem_nil, or_false]
    tauto

/-- Witness for `C5_orientations_amended`: edge 2 of the square runs from
vertex 3 = (1,0) back to vertex 2 = (1,1); the estimator reports
`atan2(0, 1) = 0` for it. -/
theorem C5_orientations_witness :
    (orientations_from_vertices squareVertices).getD 2 0 =
      np_arctan2 ((squareVertices.getD 2 (0, 0)).1 -
          (squareVertices.getD ((2 + 1) % squareVertices.length) (0, 0)).1)
        ((squareVertices.getD 2 (0, 0)).2 -
          (squareVertices.getD ((2 + 1) % squareVertices.length) (0, 0)).2) :=
  C5_orientations_amended.2.1 squareVertices 2 (by
    unfold squareVertices
    norm_num)

/-! ### Signal Interpolator: `interpolate_and_fill`

Source lines 506-521.  A 1-D float signal is embedded as a list of
`Option ℚ` samples, `none` standing for NaN.  `np.interp` is an external
numpy primitive; it is modelled from its documented contract:
piecewise-linear interpolation through the sample points `(xp, fp)`
(which the source builds strictly increasing), with constant continuation
at the edge values outside their range. -/

/-- The defined samples of a signal as (index, value) pairs in index
order, the index count starting at `k`.  For `k = 0` this is the source's
`xp` (positions of non-NaN entries) zipped with `fp` (their values). -/
def definedPoints : List (Option ℚ) → ℕ → List (ℚ × ℚ)
  | [], _ => []
  | none :: t, k => definedPoints t (k + 1)
  | some a :: t, k => ((k : ℚ), a) :: definedPoints t (k + 1)

/-- `np.interp x xp fp` on the zipped sample list, per the numpy contract
(the sample abscissae are strictly increasing here).  The `[]` and
singleton cases only pad totality: `interpolate_and_fill` reaches this
function with at least two sample points, `np.interp` having raised a
`ValueError` otherwise. -/
def npInterp (x : ℚ) : List (ℚ × ℚ) → ℚ
  | [] => 0
  | [(_, f0)] => f0
  | (x0, f0) :: (x1, f1) :: rest =>
    if x ≤ x0 then f0
    else if x ≤ x1 then f0 + (f1 - f0) * (x - x0) / (x1 - x0)
    else npInterp x ((x1, f1) :: rest)

/-- The fill pass `signal[x] = values_interp` (source line 519): every NaN
entry at index `k + i` receives the interpolated value, defined entries are
untouched. -/
def fillFrom (pts : List (ℚ × ℚ)) : List (Option ℚ) → ℕ → List (Option ℚ)
  | [], _ => []
  | some a :: t, k => some a :: fillFrom pts t (k + 1)
  | none :: t, k => some (npInterp (k : ℚ) pts) :: fillFrom pts t (k + 1)

/-- Source lines 506-521.  `xp = np.argwhere(~isnan(signal)).squeeze()`
has shape `(m, 1)` before the squeeze, where `m` counts the defined
entries: with `m = 0` it squeezes to an empty array and `np.interp` raises
`ValueError: array of sample points is empty`; with `m = 1` it squeezes to
a 0-d array and `np.interp` raises `ValueError: object of too small depth
for desired array`; only with `m ≥ 2` does the interpolation run, after
which line 519 writes the interpolated values over the NaN entries of the
argument and line 521 returns that array. -/
def interpolate_and_fill (signal : List (Option ℚ)) :
    Except String (List (Option ℚ)) :=
  if (definedPoints signal 0).length = 0 then
    Except.error "ValueError: array of sample points is empty"
  else if (definedPoints signal 0).length = 1 then
    Except.error "ValueError: object of too small depth for desired array"
  else
    Except.ok (fillFrom (definedPoints signal 0) signal 0)

/-- The observable effect of one call on the caller: the returned value
(or the raised exception) paired with the final contents of the caller's
`signal` array.  The in-place write of line 519 runs only after
`np.interp` has returned; an exception raised inside `np.interp`
propagates before it, leaving the argument as it was.  On success the
function returns the argument array itself, mutated. -/
def interpolate_and_fill_state (signal : List (Option ℚ)) :
    Except String (List (Option ℚ)) × List (Option ℚ) :=
  (interpolate_and_fill signal,
   match interpolate_and_fill signal with
   | Except.error _ => signal
   | Except.ok filled => filled)

theorem fillFrom_length (pts : List (ℚ × ℚ)) :
    ∀ (s : List (Option ℚ)) (k : ℕ), (fillFrom pts s k).length = s.length
  | [], _ => rfl
  | some _ :: t, k => by simp [fillFrom, fillFrom_length pts t (k + 1)]
  | none :: t, k => by simp [fillFrom, fillFrom_length pts t (k + 1)]

theorem fillFrom_getElem? (pts : List (ℚ × ℚ)) :
    ∀ (s : List (Option ℚ)) (k i : ℕ),
      (fillFrom pts s k)[i]? = (s[i]?).map fun v =>
        match v with
        | some a => some a
        | none => some (npInterp ((k + i : ℕ) : ℚ) pts)
  | [], _, _ => by simp [fillFrom]
  | some a :: t, k, 0 => by simp [fillFrom]
  | some a :: t, k, i + 1 => by
      simp only [fillFrom, List.getElem?_cons_succ]
      rw [fillFrom_getElem? pts t (k + 1) i]
      have : k + 1 + i = k + (i + 1) := by omega
      rw [this]
  | none :: t, k, 0 => by simp [fillFrom]
  | none :: t, k, i + 1 => by
      simp only [fillFrom, List.getElem?_cons_succ]
      rw [fillFrom_getElem? pts t (k + 1) i]
      have : k + 1 + i = k + (i + 1) := by omega
      rw [this]

theorem fillFrom_of_no_nan (pts : List (ℚ × ℚ)) :
    ∀ (s : List (Option ℚ)) (k : ℕ), (∀ v ∈ s, v ≠ none) → fillFrom pts s k = s
  | [], _, _ => rfl
  | some a :: t, k, h => by
      simp only [fillFrom, List.cons.injEq, true_and]
      exact fillFrom_of_no_nan pts t (k + 1) fun v hv => h v (List.mem_cons_of_mem _ hv)
  | none :: t, k, h => absurd rfl (h none (List.mem_cons_self _ _))

theorem definedPoints_length_no_none :
    ∀ (s : List (Option ℚ)) (k : ℕ), (∀ v ∈ s, v ≠ none) →
      (definedPoints s k).length = s.length
  | [], _, _ => rfl
  | some a :: t, k, h => by
      simp only [definedPoints, List.length_cons]
      rw [definedPoints_length_no_none t (k + 1)
        fun v hv => h v (List.mem_cons_of_mem _ hv)]
  | none :: t, k, h => absurd rfl (h none (List.mem_cons_self _ _))

theorem definedPoints_ne_nil :
    ∀ (s : List (Option ℚ)) (k : ℕ), (∃ w ∈ s, w ≠ none) →
      definedPoints s k ≠ []
  | [], _, h => by simp at h
  | some a :: t, k, _ => by simp [definedPoints]
  | none :: t, k, h => by
      rw [definedPoints]
      refine definedPoints_ne_nil t (k + 1) ?_
      obtain ⟨w, hw, hne⟩ := h
      rcases List.mem_cons.mp hw with rfl | hw
      · exact absurd rfl hne
      · exact ⟨w, hw, hne⟩

/-- With at least two defined sample points `np.interp` returns and the
call fills the signal. -/
theorem interpolate_and_fill_ok (s : List (Option ℚ))
    (h : 2 ≤ (definedPoints s 0).length) :
    interpolate_and_fill s = Except.ok (fillFrom (definedPoints s 0) s 0) := by
  rw [interpolate_and_fill, if_neg (by omega), if_neg (by omega)]

/-- With fewer than two defined sample points `np.interp` raises. -/
theorem interpolate_and_fill_error (s : List (Option ℚ))
    (h : (definedPoints s 0).length ≤ 1) :
    ∃ e, interpolate_and_fill s = Except.error e := by
  rw [interpolate_and_fill]
  by_cases h0 : (definedPoints s 0).length = 0
  · exact ⟨_, by rw [if_pos h0]⟩
  · exact ⟨_, by rw [if_neg h0, if_pos (by omega)]⟩

/-- Inversion: a successful call returned the filled signal. -/
theorem interpolate_and_fill_ok_elim (s out : List (Option ℚ))
    (h : interpolate_and_fill s = Except.ok out) :
    out = fillFrom (definedPoints s 0) s 0 := by
  rw [interpolate_and_fill] at h
  split_ifs at h
  all_goals first
    | exact Except.noConfusion h
    | exact (Except.ok.inj h).symm

theorem definedPoints_append :
    ∀ (s₁ s₂ : List (Option ℚ)) (k : ℕ),
      definedPoints (s₁ ++ s₂) k = definedPoints s₁ k ++ definedPoints s₂ (k + s₁.length)
  | [], s₂, k => by simp [definedPoints]
  | some a :: t, s₂, k => by
      simp only [List.cons_append, definedPoints, List.length_cons, List.append_eq]
      rw [definedPoints_append t s₂ (k + 1)]
      have : k + 1 + t.length = k + (t.length + 1) := by omega
      rw [this]
  | none :: t, s₂, k => by
      simp only [List.cons_append, definedPoints, List.length_cons, List.append_eq]
      rw [definedPoints_append t s₂ (k + 1)]
      have : k + 1 + t.length = k + (t.length + 1) := by omega
      rw [this]

theorem definedPoints_all_none :
    ∀ (s : List (Option ℚ)) (k : ℕ), (∀ v ∈ s, v = none) → definedPoints s k = []
  | [], _, _ => rfl
  | some a :: t, k, h => by
      have := h (some a) (List.mem_cons_self _ _)
      simp at this
  | none :: t, k, h => by
      simp only [definedPoints]
      exact definedPoints_all_none t (k + 1) fun v hv => h v (List.mem_cons_of_mem _ hv)

theorem definedPoints_fst_bounds :
    ∀ (s : List (Option ℚ)) (k : ℕ) (p : ℚ × ℚ), p ∈ definedPoints s k →
      ∃ n : ℕ, p.1 = (n : ℚ) ∧ k ≤ n ∧ n < k + s.length
  | [], _, _, h => by simp [definedPoints] at h
  | some a :: t, k, p, h => by
      rw [definedPoints] at h
      rcases List.mem_cons.mp h with h | h
      · exact ⟨k, by rw [h], le_refl k, by simp⟩
      · obtain ⟨n, h1, h2, h3⟩ := definedPoints_fst_bounds t (k + 1) p h
        exact ⟨n, h1, by omega, by simp only [List.length_cons]; omega⟩
  | none :: t, k, p, h => by
      rw [definedPoints] at h
      obtain ⟨n, h1, h2, h3⟩ := definedPoints_fst_bounds t (k + 1) p h
      exact ⟨n, h1, by omega, by simp only [List.length_cons]; omega⟩

/-- `np.interp` lands in the segment `[a, b]` after skipping any prefix of
sample points strictly left of the query. -/
theorem npInterp_segment (x : ℚ) (a b : ℚ × ℚ) (post : List (ℚ × ℚ)) :
    ∀ pre : List (ℚ × ℚ), (∀ p ∈ pre, p.1 < x) → a.1 < x → x ≤ b.1 →
      npInterp x (pre ++ a :: b :: post) =
        a.2 + (b.2 - a.2) * (x - a.1) / (b.1 - a.1) := by
  intro pre
  induction pre with
  | nil =>
    intro _ ha hb
    obtain ⟨xa, fa⟩ := a
    obtain ⟨xb, fb⟩ := b
    simp only [List.nil_append, npInterp]
    rw [if_neg (not_le.mpr ha), if_pos hb]
  | cons p pre ih =>
    intro hpre ha hb
    have hp : p.1 < x := hpre p (List.mem_cons_self _ _)
    have hpre' : ∀ q ∈ pre, q.1 < x := fun q hq => hpre q (List.mem_cons_of_mem _ hq)
    obtain ⟨xp, fp⟩ := p
    cases pre with
    | nil =>
      obtain ⟨xa, fa⟩ := a
      obtain ⟨xb, fb⟩ := b
      simp only [List.cons_append, List.nil_append, npInterp]
      rw [if_neg (not_le.mpr hp), if_neg (not_le.mpr ha)]
      simp only [npInterp, if_neg (not_le.mpr ha), if_pos hb]
    | cons q pre' =>
      obtain ⟨xq, fq⟩ := q
      have hq : xq < x := hpre' (xq, fq) (List.mem_cons_self _ _)
      simp only [List.cons_append, npInterp]
      rw [if_neg (not_le.mpr hp), if_neg (not_le.mpr hq)]
      have := ih hpre' ha hb
      simpa only [List.cons_append] using this

/-- `np.interp` left of every sample point returns the first sample value. -/
theorem npInterp_head (x : ℚ) :
    ∀ (h : ℚ × ℚ) (t : List (ℚ × ℚ)), x ≤ h.1 → npInterp x (h :: t) = h.2 := by
  intro h t hx
  obtain ⟨x0, f0⟩ := h
  cases t with
  | nil => rfl
  | cons b t => obtain ⟨x1, f1⟩ := b; simp only [npInterp]; rw [if_pos hx]

/-- `np.interp` right of every sample point returns the last sample value. -/
theorem npInterp_last (x : ℚ) :
    ∀ (l : List (ℚ × ℚ)) (hne : l ≠ []), (∀ p ∈ l, p.1 < x) →
      npInterp x l = (l.getLast hne).2
  | [], hne, _ => absurd rfl hne
  | [(x0, f0)], _, _ => rfl
  | (x0, f0) :: (x1, f1) :: t, _, h => by
      simp only [npInterp]
      rw [if_neg (not_le.mpr (h (x0, f0) (List.mem_cons_self _ _))),
        if_neg (not_le.mpr (h (x1, f1) (List.mem_cons_of_mem _ (List.mem_cons_self _ _))))]
      rw [npInterp_last x ((x1, f1) :: t) (by simp)
        (fun p hp => h p (List.mem_cons_of_mem _ hp))]
      simp [List.getLast]

/-- C7 (amended): the Signal Interpolator raises `np.interp`'s
`ValueError` when fewer than two entries of the signal are defined
(`.squeeze()` collapses the sample arrays to 0-d or empty); on every
successful call it (i) preserves length; (ii) returns a NaN-free input
with at least two entries unchanged; (iii) keeps every defined entry;
(iv) replaces a NaN entry strictly between its nearest defined
neighbours — indices `j₁ = s₁.length` and `j₂ = s₁.length + 1 + mid.length`
with every entry of `mid` undefined — by the linear interpolation
`v₁ + (v₂ - v₁)·(i - j₁)/(j₂ - j₁)`; (v) replaces a NaN entry before the
first defined entry by the first defined value, some later entry being
defined; (vi) replaces a NaN entry after the last defined entry by the
last defined value, some earlier entry being defined; and (vii) maps
`[1, nan, 3]` to `[1, 2, 3]`. -/
theorem C7_interpolator_linear_fill :
    (∀ s : List (Option ℚ), (definedPoints s 0).length ≤ 1 →
      ∃ e, interpolate_and_fill s = Except.error e) ∧
    (∀ s out : List (Option ℚ), interpolate_and_fill s = Except.ok out →
      out.length = s.length) ∧
    (∀ s : List (Option ℚ), (∀ v ∈ s, v ≠ none) → 2 ≤ s.length →
      interpolate_and_fill s = Except.ok s) ∧
    (∀ (s out : List (Option ℚ)) (i : ℕ) (a : ℚ),
      interpolate_and_fill s = Except.ok out → s[i]? = some (some a) →
      out[i]? = some (some a)) ∧
    (∀ (s₁ mid s₂ : List (Option ℚ)) (v₁ v₂ : ℚ) (m : ℕ),
      (∀ u ∈ mid, u = none) → m < mid.length →
      ∃ out, interpolate_and_fill (s₁ ++ some v₁ :: (mid ++ some v₂ :: s₂)) =
          Except.ok out ∧
        out[s₁.length + 1 + m]? = some (some (v₁ + (v₂ - v₁) *
          (((s₁.length + 1 + m : ℕ) : ℚ) - (s₁.length : ℕ)) /
          (((s₁.length + 1 + mid.length : ℕ) : ℚ) - (s₁.length : ℕ))))) ∧
    (∀ (mid rest : List (Option ℚ)) (v : ℚ) (m : ℕ),
      (∀ u ∈ mid, u = none) → m < mid.length → (∃ w ∈ rest, w ≠ none) →
      ∃ out, interpolate_and_fill (mid ++ some v :: rest) = Except.ok out ∧
        out[m]? = some (some v)) ∧
    (∀ (s₁ mid : List (Option ℚ)) (v : ℚ) (m : ℕ),
      (∀ u ∈ mid, u = none) → m < mid.length → (∃ w ∈ s₁, w ≠ none) →
      ∃ out, interpolate_and_fill (s₁ ++ some v :: mid) = Except.ok out ∧
        out[s₁.length + 1 + m]? = some (some v)) ∧
    interpolate_and_fill [some 1, none, some 3] =
      Except.ok [some 1, some 2, some 3] := by
  refine ⟨?_, ?_, ?_, ?_, ?_, ?_, ?_, ?_⟩
  · exact interpolate_and_fill_error
  · intro s out h
    rw [interpolate_and_fill_ok_elim s out h]
    exact fillFrom_length _ s 0
  · intro s h hlen
    have h2 : 2 ≤ (definedPoints s 0).length := by
      rw [definedPoints_length_no_none s 0 h]
      exact hlen
    rw [interpolate_and_fill_ok s h2, fillFrom_of_no_nan _ s 0 h]
  · intro s out i a hok hsi
    rw [interpolate_and_fill_ok_elim s out hok, fillFrom_getElem?, hsi,
      Option.map_some']
  · intro s₁ mid s₂ v₁ v₂ m hmid hm
    have hidx : (s₁ ++ some v₁ :: (mid ++ some v₂ :: s₂))[s₁.length + 1 + m]? =
        some none := by
      rw [List.getElem?_append_right (by omega)]
      have h1 : s₁.length + 1 + m - s₁.length = m + 1 := by omega
      rw [h1, List.getElem?_cons_succ, List.getElem?_append_left hm,
        List.getElem?_eq_getElem hm, hmid _ (List.getElem_mem hm)]
    have hpts : definedPoints (s₁ ++ some v₁ :: (mid ++ some v₂ :: s₂)) 0 =
        definedPoints s₁ 0 ++ (((s₁.length : ℕ) : ℚ), v₁) ::
          (((s₁.length + 1 + mid.length : ℕ) : ℚ), v₂) ::
            definedPoints s₂ (s₁.length + 1 + mid.length + 1) := by
      rw [definedPoints_append]
      simp only [Nat.zero_add, definedPoints]
      rw [definedPoints_append, definedPoints_all_none mid _ hmid]
      simp only [List.nil_append, definedPoints]
    have h2 : 2 ≤ (definedPoints (s₁ ++ some v₁ :: (mid ++ some v₂ :: s₂)) 0).length := by
      rw [hpts]
      simp only [List.length_append, List.length_cons]
      omega
    refine ⟨_, interpolate_and_fill_ok _ h2, ?_⟩
    rw [fillFrom_getElem?, hidx, Option.map_some']
    simp only [Nat.zero_add]
    rw [hpts]
    rw [npInterp_segment _ _ _ _ _ ?hpre ?ha ?hb]
    case hpre =>
      intro p hp
      obtain ⟨n, h1, _, h3⟩ := definedPoints_fst_bounds s₁ 0 p hp
      rw [h1]
      exact_mod_cast (by omega : n < s₁.length + 1 + m)
    case ha =>
      dsimp only
      exact_mod_cast (by omega : s₁.length < s₁.length + 1 + m)
    case hb =>
      dsimp only
      exact_mod_cast (by omega : s₁.length + 1 + m ≤ s₁.length + 1 + mid.length)
  · intro mid rest v m hmid hm hex
    have hidx : (mid ++ some v :: rest)[m]? = some none := by
      rw [List.getElem?_append_left hm, List.getElem?_eq_getElem hm,
        hmid _ (List.getElem_mem hm)]
    have hpts : definedPoints (mid ++ some v :: rest) 0 =
        (((mid.length : ℕ) : ℚ), v) :: definedPoints rest (mid.length + 1) := by
      rw [definedPoints_append, definedPoints_all_none mid _ hmid]
      simp [definedPoints]
    have hne := definedPoints_ne_nil rest (mid.length + 1) hex
    have h2 : 2 ≤ (definedPoints (mid ++ some v :: rest) 0).length := by
      rw [hpts]
      simp only [List.length_cons]
      have := List.length_pos.mpr hne
      omega
    refine ⟨_, interpolate_and_fill_ok _ h2, ?_⟩
    rw [fillFrom_getElem?, hidx, Option.map_some', hpts,
      npInterp_head _ _ _ (by
        show ((0 + m : ℕ) : ℚ) ≤ ((mid.length : ℕ) : ℚ)
        exact_mod_cast Nat.le_of_lt (by omega : 0 + m < mid.length))]
  · intro s₁ mid v m hmid hm hex
    have hidx : (s₁ ++ some v :: mid)[s₁.length + 1 + m]? = some none := by
      rw [List.getElem?_append_right (by omega)]
      have h1 : s₁.length + 1 + m - s₁.length = m + 1 := by omega
      rw [h1, List.getElem?_cons_succ, List.getElem?_eq_getElem hm,
        hmid _ (List.getElem_mem hm)]
    have hpts : definedPoints (s₁ ++ some v :: mid) 0 =
        definedPoints s₁ 0 ++ [(((s₁.length : ℕ) : ℚ), v)] := by
      rw [definedPoints_append]
      simp only [Nat.zero_add, definedPoints]
      rw [definedPoints_all_none mid _ hmid]
    have hne1 := definedPoints_ne_nil s₁ 0 hex
    have h2 : 2 ≤ (definedPoints (s₁ ++ some v :: mid) 0).length := by
      rw [hpts]
      simp only [List.length_append, List.length_cons, List.length_nil]
      have := List.length_pos.mpr hne1
      omega
    refine ⟨_, interpolate_and_fill_ok _ h2, ?_⟩
    rw [fillFrom_getElem?, hidx, Option.map_some', hpts]
    have hne : definedPoints s₁ 0 ++ [(((s₁.length : ℕ) : ℚ), v)] ≠ [] := by simp
    rw [npInterp_last _ _ hne ?hlt]
    case hlt =>
      intro p hp
      rcases List.mem_append.mp hp with hp | hp
      · obtain ⟨n, h1, _, h3⟩ := definedPoints_fst_bounds s₁ 0 p hp
        rw [h1]
        exact_mod_cast (by omega : n < 0 + (s₁.length + 1 + m))
      · rcases List.mem_singleton.mp hp with rfl
        dsimp only
        exact_mod_cast (by omega : s₁.length < 0 + (s₁.length + 1 + m))
    rw [List.getLast_concat]
  · norm_num [interpolate_and_fill, fillFrom, definedPoints, npInterp]

/-- C7 (claim as stated is false): on the signal `[nan, 5]`, which has a
defined entry and so lies in the claimed domain, the interpolator does not
return a filled sequence at all: `.squeeze()` collapses the one-point
sample arrays to 0-d and `np.interp` raises `ValueError`. -/
theorem C7_counterexample :
    interpolate_and_fill [none, some 5] =
      Except.error "ValueError: object of too small depth for desired array" :=
  rfl

/-- Witness for `C7_interpolator_linear_fill`, instantiating the
middle-interpolation clause on the concrete signal `[1, nan, 3]`. -/
theorem C7_interpolator_witness :
    ∃ out, interpolate_and_fill ([] ++ some 1 :: ([none] ++ some 3 :: [])) =
        Except.ok out ∧
      out[([] : List (Option ℚ)).length + 1 + 0]? =
        some (some ((1 : ℚ) + ((3 : ℚ) - 1) *
          (((([] : List (Option ℚ)).length + 1 + 0 : ℕ) : ℚ) -
            (([] : List (Option ℚ)).length : ℕ)) /
          (((([] : List (Option ℚ)).length + 1 + ([none] :
              List (Option ℚ)).length : ℕ) : ℚ) -
            (([] : List (Option ℚ)).length : ℕ)))) :=
  C7_interpolator_linear_fill.2.2.2.2.1 [] [none] [] 1 3 0
    (by intro u hu; simpa using hu) (by norm_num)

/-- C9 (claim as stated is false): the Signal Interpolator mutates its
argument in place (`signal[x] = values_interp`); on the input
`[1, nan, 3]` the array contents after the call differ from the original
array. -/
theorem C9_counterexample :
    (interpolate_and_fill_state [some 1, none, some 3]).2 ≠
      [some 1, none, some 3] := by
  decide

/-- C9 (amended): the module is not free of side effects on its input
arrays.  For the Signal Interpolator: (1) on every successful call the
returned array is exactly the post-call state of the mutated argument;
(2) when `np.interp` raises — fewer than two defined entries — the
exception propagates and the argument is left unchanged; (3) whenever the
call succeeds (at least two defined entries) and the input has a NaN
entry, the argument is genuinely modified in place; (4) a NaN-free
argument is always left unchanged. -/
theorem C9_interpolator_mutation_amended :
    (∀ s out : List (Option ℚ), interpolate_and_fill s = Except.ok out →
      interpolate_and_fill_state s = (Except.ok out, out)) ∧
    (∀ (s : List (Option ℚ)) (e : String),
      interpolate_and_fill s = Except.error e →
      interpolate_and_fill_state s = (Except.error e, s)) ∧
    (∀ s : List (Option ℚ), 2 ≤ (definedPoints s 0).length →
      (∃ v ∈ s, v = none) → (interpolate_and_fill_state s).2 ≠ s) ∧
    (∀ s : List (Option ℚ), (∀ v ∈ s, v ≠ none) →
      (interpolate_and_fill_state s).2 = s) := by
  refine ⟨?_, ?_, ?_, ?_⟩
  · intro s out h
    simp only [interpolate_and_fill_state, h]
  · intro s e h
    simp only [interpolate_and_fill_state, h]
  · intro s h2 hex
    obtain ⟨v, hv, hveq⟩ := hex
    subst hveq
    obtain ⟨i, hi, hget⟩ := List.getElem_of_mem hv
    have hok := interpolate_and_fill_ok s h2
    simp only [interpolate_and_fill_state, hok]
    intro heq
    have hgi : s[i]? = some none := by
      rw [List.getElem?_eq_getElem hi, hget]
    have hcong := congrArg (fun l => l[i]?) heq
    dsimp only at hcong
    rw [fillFrom_getElem?, hgi, Option.map_some'] at hcong
    simp at hcong
  · intro s h
    by_cases h2 : 2 ≤ (definedPoints s 0).length
    · have hok := interpolate_and_fill_ok s h2
      simp only [interpolate_and_fill_state, hok]
      exact fillFrom_of_no_nan _ s 0 h
    · obtain ⟨e, he⟩ := interpolate_and_fill_error s (by omega)
      simp only [interpolate_and_fill_state, he]

/-- Witness for `C9_interpolator_mutation_amended` on the NaN-free signal
`[1, 2]`. -/
theorem C9_interpolator_mutation_witness :
    (interpolate_and_fill_state [some 1, some 2]).2 = [some 1, some 2] :=
  C9_interpolator_mutation_amended.2.2.2 [some 1, some 2]
    (by intro v hv; rcases List.mem_cons.mp hv with rfl | hv; · simp
        rcases List.mem_cons.mp hv with rfl | hv; · simp
        simp at hv)

/-! ### Pixel grids and scikit-image morphology primitives

Grids are row-major `List (List _)` arrays.  The morphological primitives
are external black boxes per the spec ("standard set-based image
morphology contracts"); they are modelled from the scikit-image contracts:
`disk(r)` is the set of offsets with `dr² + dc² ≤ r²`; binary dilation
treats pixels outside the image as background (False); binary erosion
treats them as foreground (True), so that image borders do not erode
(skimage `border_value` handling).  The disk footprint is symmetric, so
footprint reflection in dilation is immaterial. -/

def gWidth (g : List (List α)) : ℕ := (g.headD []).length

def build (h w : ℕ) (f : ℕ → ℕ → α) : List (List α) :=
  (List.range h).map fun r => (List.range w).map fun c => f r c

def getD2 (g : List (List α)) (d : α) (r c : ℕ) : α := (g.getD r []).getD c d

/-- Pixel value at integer coordinates, False outside the image. -/
def getBI (g : List (List Bool)) (y x : ℤ) : Bool :=
  if 0 ≤ y ∧ 0 ≤ x then getD2 g false y.toNat x.toNat else false

def inBounds (g : List (List α)) (y x : ℤ) : Bool :=
  decide (0 ≤ y ∧ y < (g.length : ℤ) ∧ 0 ≤ x ∧ x < (gWidth g : ℤ))

/-- Offsets of the structuring element `skimage.morphology.disk k`. -/
def diskOffsets (k : ℕ) : List (ℤ × ℤ) :=
  ((List.range (2 * k + 1)).flatMap fun (a : ℕ) =>
    (List.range (2 * k + 1)).map fun (b : ℕ) =>
      ((a : ℤ) - (k : ℤ), (b : ℤ) - (k : ℤ))).filter fun d =>
    decide (d.1 ^ 2 + d.2 ^ 2 ≤ (k : ℤ) ^ 2)

/-- Dilated value at one pixel: some footprint neighbour is foreground. -/
def dilateVal (k : ℕ) (g : List (List Bool)) (r c : ℕ) : Bool :=
  (diskOffsets k).any fun d => getBI g ((r : ℤ) + d.1) ((c : ℤ) + d.2)

/-- Eroded value at one pixel: every in-bounds footprint neighbour is
foreground (out-of-bounds neighbours count as foreground). -/
def erodeVal (k : ℕ) (g : List (List Bool)) (r c : ℕ) : Bool :=
  (diskOffsets k).all fun d =>
    !inBounds g ((r : ℤ) + d.1) ((c : ℤ) + d.2) ||
      getBI g ((r : ℤ) + d.1) ((c : ℤ) + d.2)

def binary_dilation (k : ℕ) (g : List (List Bool)) : List (List Bool) :=
  build g.length (gWidth g) (dilateVal k g)

def binary_erosion (k : ℕ) (g : List (List Bool)) : List (List Bool) :=
  build g.length (gWidth g) (erodeVal k g)

/-- Grey erosion of a 0/1 image coincides with binary erosion. -/
def erosion (k : ℕ) (g : List (List Bool)) : List (List Bool) := binary_erosion k g

def opening (k : ℕ) (g : List (List Bool)) : List (List Bool) :=
  binary_dilation k (binary_erosion k g)

def closing (k : ℕ) (g : List (List Bool)) : List (List Bool) :=
  binary_erosion k (binary_dilation k g)

theorem length_build (h w : ℕ) (f : ℕ → ℕ → α) : (build h w f).length = h := by
  simp [build]

theorem gWidth_build (h w : ℕ) (f : ℕ → ℕ → α) (hh : h ≠ 0) :
    gWidth (build h w f) = w := by
  obtain ⟨m, rfl⟩ := Nat.exists_eq_succ_of_ne_zero hh
  rw [build, gWidth, List.range_succ_eq_map]
  simp

theorem getD2_build (h w : ℕ) (f : ℕ → ℕ → α) (d : α) (r c : ℕ)
    (hr : r < h) (hc : c < w) : getD2 (build h w f) d r c = f r c := by
  simp only [getD2, build, List.getD_eq_getElem?_getD, List.getElem?_map,
    List.getElem?_range hr, List.getElem?_range hc, Option.map_some', Option.getD_some]

theorem getD2_build_row (h w : ℕ) (f : ℕ → ℕ → α) (r : ℕ) (hr : r < h) :
    (build h w f).getD r [] = (List.range w).map (f r) := by
  rw [build, List.getD_eq_getElem?_getD, List.getElem?_map, List.getElem?_range hr]
  rfl

theorem getD2_build_oob (h w : ℕ) (f : ℕ → ℕ → α) (d : α) (r c : ℕ)
    (hout : h ≤ r ∨ w ≤ c) : getD2 (build h w f) d r c = d := by
  rcases Nat.lt_or_ge r h with hr | hr
  · rcases hout with hout | hout
    · omega
    · rw [getD2, getD2_build_row h w f r hr, List.getD_eq_getElem?_getD,
        List.getElem?_eq_none (by simp [hout])]
      rfl
  · have hrow : (build h w f).getD r [] = [] := by
      rw [List.getD_eq_getElem?_getD, List.getElem?_eq_none (by rw [length_build]; exact hr)]
      rfl
    rw [getD2, hrow]
    rfl

theorem mem_diskOffsets {k : ℕ} {d : ℤ × ℤ} :
    d ∈ diskOffsets k ↔ d.1 ^ 2 + d.2 ^ 2 ≤ (k : ℤ) ^ 2 ∧
      -(k : ℤ) ≤ d.1 ∧ d.1 ≤ k ∧ -(k : ℤ) ≤ d.2 ∧ d.2 ≤ k := by
  constructor
  · intro hd
    rw [diskOffsets, List.mem_filter] at hd
    obtain ⟨hmem, hle⟩ := hd
    rw [List.mem_flatMap] at hmem
    obtain ⟨a, ha, hmem⟩ := hmem
    rw [List.mem_map] at hmem
    obtain ⟨b, hb, rfl⟩ := hmem
    rw [List.mem_range] at ha hb
    rw [decide_eq_true_iff] at hle
    dsimp only at hle ⊢
    exact ⟨hle, by omega, by omega, by omega, by omega⟩
  · rintro ⟨hle, h1, h2, h3, h4⟩
    rw [diskOffsets, List.mem_filter]
    refine ⟨?_, by rw [decide_eq_true_iff]; exact hle⟩
    rw [List.mem_flatMap]
    refine ⟨(d.1 + k).toNat, ?_, ?_⟩
    · rw [List.mem_range]; omega
    · rw [List.mem_map]
      refine ⟨(d.2 + k).toNat, by rw [List.mem_range]; omega, ?_⟩
      have e1 : ((((d.1 + k).toNat : ℕ) : ℤ)) - (k : ℤ) = d.1 := by omega
      have e2 : ((((d.2 + k).toNat : ℕ) : ℤ)) - (k : ℤ) = d.2 := by omega
      rw [e1, e2]

theorem zero_mem_diskOffsets (k : ℕ) : ((0 : ℤ), (0 : ℤ)) ∈ diskOffsets k := by
  rw [mem_diskOffsets]
  refine ⟨by positivity, by omega, by omega, by omega, by omega⟩

theorem neg_mem_diskOffsets {k : ℕ} {d : ℤ × ℤ} (hd : d ∈ diskOffsets k) :
    (-d.1, -d.2) ∈ diskOffsets k := by
  rw [mem_diskOffsets] at hd ⊢
  obtain ⟨hle, h1, h2, h3, h4⟩ := hd
  dsimp only
  refine ⟨by rw [neg_sq, neg_sq]; exact hle, by omega, by omega, by omega, by omega⟩

/-- Binary erosion with the disk footprint is anti-extensive. -/
theorem erodeVal_subset (k : ℕ) (g : List (List Bool)) (r c : ℕ)
    (hr : r < g.length) (hc : c < gWidth g) :
    erodeVal k g r c = true → getD2 g false r c = true := by
  intro h
  rw [erodeVal, List.all_eq_true] at h
  have h0 := h (0, 0) (zero_mem_diskOffsets k)
  simp only [add_zero] at h0
  have hin : inBounds g ((r : ℤ)) ((c : ℤ)) = true := by
    rw [inBounds, decide_eq_true_iff]
    refine ⟨by positivity, by exact_mod_cast hr, by positivity, by exact_mod_cast hc⟩
  rw [hin] at h0
  simp only [Bool.not_true, Bool.false_or] at h0
  rw [getBI, if_pos ⟨by positivity, by positivity⟩] at h0
  simpa using h0

/-- Opening with the (symmetric) disk footprint is anti-extensive. -/
theorem opening_subset (k : ℕ) (g : List (List Bool)) (r c : ℕ)
    (hr : r < g.length) (hc : c < gWidth g) :
    getD2 (opening k g) false r c = true → getD2 g false r c = true := by
  intro h
  have hg0 : g.length ≠ 0 := by omega
  have hlen : (binary_erosion k g).length = g.length := by
    rw [binary_erosion, length_build]
  have hwid : gWidth (binary_erosion k g) = gWidth g := by
    rw [binary_erosion, gWidth_build _ _ _ hg0]
  rw [opening, binary_dilation, hlen, hwid, getD2_build _ _ _ _ _ _ hr hc,
    dilateVal, List.any_eq_true] at h
  obtain ⟨dd, hdd, hval⟩ := h
  rw [getBI] at hval
  split_ifs at hval with hpos
  · obtain ⟨hy, hx⟩ := hpos
    set y := ((r : ℤ) + dd.1).toNat with hy2
    set x := ((c : ℤ) + dd.2).toNat with hx2
    by_cases hyb : y < g.length ∧ x < gWidth g
    · rw [binary_erosion, getD2_build _ _ _ _ _ _ hyb.1 hyb.2, erodeVal,
        List.all_eq_true] at hval
      have hneg := hval (-dd.1, -dd.2) (neg_mem_diskOffsets hdd)
      have hyy : ((y : ℤ)) + -dd.1 = (r : ℤ) := by omega
      have hxx : ((x : ℤ)) + -dd.2 = (c : ℤ) := by omega
      rw [hyy, hxx] at hneg
      have hin : inBounds g ((r : ℤ)) ((c : ℤ)) = true := by
        rw [inBounds, decide_eq_true_iff]
        refine ⟨by positivity, by exact_mod_cast hr, by positivity, by exact_mod_cast hc⟩
      rw [hin] at hneg
      simp only [Bool.not_true, Bool.false_or] at hneg
      rw [getBI, if_pos ⟨by positivity, by positivity⟩] at hneg
      simpa using hneg
    · exfalso
      rw [binary_erosion, getD2_build_oob _ _ _ _ _ _ (by omega)] at hval
      exact Bool.false_ne_true hval

/-! ### Gap/Overlap Resolver: `fill_gaps_between_cells` (source lines 277-327) -/

/-- `mask_shapes`: the overlap-aware mask with sentinel pixels zeroed
(lines 289-290). -/
def zeroSentinel (m : List (List ℕ)) : List (List ℕ) :=
  build m.length (gWidth m) fun r c =>
    if getD2 m 0 r c = 255 then 0 else getD2 m 0 r c

/-- `np.max` over the label grid. -/
def gridMax (m : List (List ℕ)) : ℕ :=
  (m.map fun row => row.foldr max 0).foldr max 0

/-- `mask = (mask_shapes == i+1)`: one region's binary mask (line 298). -/
def regionMask (ms : List (List ℕ)) (lab : ℕ) : List (List Bool) :=
  build ms.length (gWidth ms) fun r c => decide (getD2 ms 0 r c = lab)

/-- One pixel of `mask_list_small[i] = binary_dilation(mask, disk 8) - mask`
(line 303), as an integer. -/
def smallRingVal (ms : List (List ℕ)) (lab : ℕ) (r c : ℕ) : ℤ :=
  (if dilateVal 8 (regionMask ms lab) r c then 1 else 0) -
    (if getD2 (regionMask ms lab) false r c then 1 else 0)

/-- One pixel of `mask_list_big[i] = binary_dilation(mask, disk 10) - mask`
(line 304). -/
def bigRingVal (ms : List (List ℕ)) (lab : ℕ) (r c : ℕ) : ℤ :=
  (if dilateVal 10 (regionMask ms lab) r c then 1 else 0) -
    (if getD2 (regionMask ms lab) false r c then 1 else 0)

/-- `np.sum(np.array(mask_list_big), axis=0)` at one pixel (line 308). -/
def bigRingSum (ms : List (List ℕ)) (r c : ℕ) : ℤ :=
  ((List.range (gridMax ms)).map fun i => bigRingVal ms (i + 1) r c).sum

/-- `possible = np.sum(np.array(mask_list_big), axis=0) > 1` (line 308). -/
def possibleGrid (ms : List (List ℕ)) : List (List Bool) :=
  build ms.length (gWidth ms) fun r c => decide (1 < bigRingSum ms r c)

/-- `passages = np.sum(logical_and(mask_list_small, possible), axis=0)`
(lines 312-313): count of regions whose small ring covers the pixel, where
the pixel is `possible`. -/
def passagesGrid (ms : List (List ℕ)) : List (List ℕ) :=
  build ms.length (gWidth ms) fun r c =>
    ((List.range (gridMax ms)).map fun i =>
      if smallRingVal ms (i + 1) r c ≠ 0 ∧ getD2 (possibleGrid ms) false r c then
        (1 : ℕ) else 0).sum

/-- `(grid > 0)` of a label grid. -/
def posGrid (m : List (List ℕ)) : List (List Bool) :=
  build m.length (gWidth m) fun r c => decide (0 < getD2 m 0 r c)

/-- `(grid == 255)`. -/
def sentinelGrid (m : List (List ℕ)) : List (List Bool) :=
  build m.length (gWidth m) fun r c => decide (getD2 m 0 r c = 255)

/-- `(grid > 1)`. -/
def gtOneGrid (m : List (List ℕ)) : List (List Bool) :=
  build m.length (gWidth m) fun r c => decide (1 < getD2 m 0 r c)

/-- Pointwise boolean union of two same-shape masks; each re-union step of
the source ors a {0,1} grid with the original foreground and compares with
0, which is the pointwise disjunction. -/
def orGrid (g₁ g₂ : List (List Bool)) : List (List Bool) :=
  build g₁.length (gWidth g₁) fun r c =>
    getD2 g₁ false r c || getD2 g₂ false r c

/-- `mask_to_trim = (mask_shapes_overlap > 0) | (passages > 1)` (line 316). -/
def mask_to_trim (mso : List (List ℕ)) : List (List Bool) :=
  orGrid (posGrid mso) (gtOneGrid (passagesGrid (zeroSentinel mso)))

/-- Line 317: `opening(mask_to_trim, disk 10) | (mask_shapes_overlap > 0)`. -/
def mask_trimmed1 (mso : List (List ℕ)) : List (List Bool) :=
  orGrid (opening 10 (mask_to_trim mso)) (posGrid mso)

/-- Line 318: `binary_erosion(·, disk 5) | (mask_shapes_overlap > 0)`. -/
def mask_trimmed2 (mso : List (List ℕ)) : List (List Bool) :=
  orGrid (binary_erosion 5 (mask_trimmed1 mso)) (posGrid mso)

/-- Line 319: `closing(·, disk 2) | (mask_shapes_overlap > 0)`. -/
def mask_trimmed3 (mso : List (List ℕ)) : List (List Bool) :=
  orGrid (closing 2 (mask_trimmed2 mso)) (posGrid mso)

/-- `to_divide = mask_trimmed.astype(int) - (mso > 0).astype(int) +
(mso == 255).astype(int)` (line 322). -/
def to_divide (mso : List (List ℕ)) : List (List ℤ) :=
  build mso.length (gWidth mso) fun r c =>
    (if getD2 (mask_trimmed3 mso) false r c then (1 : ℤ) else 0) -
      (if getD2 (posGrid mso) false r c then 1 else 0) +
      (if getD2 (sentinelGrid mso) false r c then 1 else 0)

/-- All pixel coordinates of an h×w grid, row-major. -/
def allPixels (h w : ℕ) : List (ℕ × ℕ) :=
  (List.range h).flatMap fun (r : ℕ) => (List.range w).map fun (c : ℕ) => (r, c)

/-- skimage `expand_labels(label_image, distance)` per its documented
contract: each background pixel within `distance` of some labelled pixel
takes the label of the nearest labelled pixel (Euclidean distance).  The
library leaves equidistant ties unspecified; here the first candidate in
row-major order wins.  No theorem depends on the tie-break. -/
def expand_labels (m : List (List ℕ)) (dist : ℕ) : List (List ℕ) :=
  build m.length (gWidth m) fun r c =>
    if getD2 m 0 r c ≠ 0 then getD2 m 0 r c
    else
      match ((allPixels m.length (gWidth m)).filterMap fun (rc : ℕ × ℕ) =>
        if getD2 m 0 rc.1 rc.2 ≠ 0 ∧
            ((r : ℤ) - rc.1) ^ 2 + ((c : ℤ) - rc.2) ^ 2 ≤ (dist : ℤ) ^ 2 then
          some (((r : ℤ) - rc.1) ^ 2 + ((c : ℤ) - rc.2) ^ 2,
            getD2 m 0 rc.1 rc.2)
        else none).foldl (fun best x =>
          match best with
          | none => some x
          | some b => if x.1 < b.1 then some x else some b) none with
      | some b => b.2
      | none => 0

/-- Pointwise product `expand_labels(mask_shapes, 250) * to_divide`
(line 325). -/
def mulGrid (a : List (List ℕ)) (b : List (List ℤ)) : List (List ℤ) :=
  build a.length (gWidth a) fun r c => ((getD2 a 0 r c : ℕ) : ℤ) * getD2 b 0 r c

/-- Source lines 277-327: the correction grid. -/
def fill_gaps_between_cells (mso : List (List ℕ)) : List (List ℤ) :=
  mulGrid (expand_labels (zeroSentinel mso) 250) (to_divide mso)

/-- The mask contains no sentinel (255) pixels. -/
def sentinelFree (m : List (List ℕ)) : Prop :=
  ∀ r < m.length, ∀ c < gWidth m, getD2 m 0 r c ≠ 255

/-- The claim's no-narrow-gap condition on a label mask: no pixel lies in
the 8 px dilation ring of one region while lying in the 10 px dilation
rings of two or more distinct regions. -/
def gapFree (ms : List (List ℕ)) : Prop :=
  ∀ r < ms.length, ∀ c < gWidth ms,
    ¬ ∃ i < gridMax ms, smallRingVal ms (i + 1) r c ≠ 0 ∧ 1 < bigRingSum ms r c

/-- The amended extra hypothesis: morphological closing by disk(2) adds no
pixel to the mask foreground (no narrow concavity of width ≲ 4 px). -/
def closingStable (mso : List (List ℕ)) : Prop :=
  ∀ r < mso.length, ∀ c < gWidth mso,
    getD2 (closing 2 (posGrid mso)) false r c = true →
      getD2 (posGrid mso) false r c = true

theorem or_absorb_val {x y : Bool} (h : x = true → y = true) : (x || y) = y := by
  cases x
  · simp
  · simp [h rfl]

theorem build_congr (h w : ℕ) (f g : ℕ → ℕ → α)
    (hfg : ∀ r < h, ∀ c < w, f r c = g r c) : build h w f = build h w g := by
  unfold build
  apply List.map_congr_left
  intro r hr
  rw [List.mem_range] at hr
  apply List.map_congr_left
  intro c hc
  rw [List.mem_range] at hc
  exact hfg r hr c hc

theorem length_orGrid (g₁ g₂ : List (List Bool)) : (orGrid g₁ g₂).length = g₁.length :=
  length_build _ _ _

theorem gWidth_orGrid (g₁ g₂ : List (List Bool)) (h : g₁.length ≠ 0) :
    gWidth (orGrid g₁ g₂) = gWidth g₁ := gWidth_build _ _ _ h

theorem length_binary_dilation (k : ℕ) (g : List (List Bool)) :
    (binary_dilation k g).length = g.length := length_build _ _ _

theorem gWidth_binary_dilation (k : ℕ) (g : List (List Bool)) (h : g.length ≠ 0) :
    gWidth (binary_dilation k g) = gWidth g := gWidth_build _ _ _ h

theorem length_binary_erosion (k : ℕ) (g : List (List Bool)) :
    (binary_erosion k g).length = g.length := length_build _ _ _

theorem gWidth_binary_erosion (k : ℕ) (g : List (List Bool)) (h : g.length ≠ 0) :
    gWidth (binary_erosion k g) = gWidth g := gWidth_build _ _ _ h

theorem length_opening (k : ℕ) (g : List (List Bool)) :
    (opening k g).length = g.length := by
  rw [opening, length_binary_dilation, length_binary_erosion]

theorem gWidth_opening (k : ℕ) (g : List (List Bool)) (h : g.length ≠ 0) :
    gWidth (opening k g) = gWidth g := by
  rw [opening, gWidth_binary_dilation _ _ (by rw [length_binary_erosion]; exact h),
    gWidth_binary_erosion _ _ h]

theorem length_closing (k : ℕ) (g : List (List Bool)) :
    (closing k g).length = g.length := by
  rw [closing, length_binary_erosion, length_binary_dilation]

theorem gWidth_closing (k : ℕ) (g : List (List Bool)) (h : g.length ≠ 0) :
    gWidth (closing k g) = gWidth g := by
  rw [closing, gWidth_binary_erosion _ _ (by rw [length_binary_dilation]; exact h),
    gWidth_binary_dilation _ _ h]

theorem length_posGrid (m : List (List ℕ)) : (posGrid m).length = m.length :=
  length_build _ _ _

theorem gWidth_posGrid (m : List (List ℕ)) (h : m.length ≠ 0) :
    gWidth (posGrid m) = gWidth m := gWidth_build _ _ _ h

theorem length_zeroSentinel (m : List (List ℕ)) : (zeroSentinel m).length = m.length :=
  length_build _ _ _

theorem gWidth_zeroSentinel (m : List (List ℕ)) (h : m.length ≠ 0) :
    gWidth (zeroSentinel m) = gWidth m := gWidth_build _ _ _ h

theorem length_passagesGrid (ms : List (List ℕ)) :
    (passagesGrid ms).length = ms.length := length_build _ _ _

theorem gWidth_passagesGrid (ms : List (List ℕ)) (h : ms.length ≠ 0) :
    gWidth (passagesGrid ms) = gWidth ms := gWidth_build _ _ _ h

theorem length_mask_to_trim (mso : List (List ℕ)) :
    (mask_to_trim mso).length = mso.length := by
  rw [mask_to_trim, length_orGrid, length_posGrid]

theorem gWidth_mask_to_trim (mso : List (List ℕ)) (h : mso.length ≠ 0) :
    gWidth (mask_to_trim mso) = gWidth mso := by
  rw [mask_to_trim, gWidth_orGrid _ _ (by rw [length_posGrid]; exact h),
    gWidth_posGrid _ h]

theorem length_mask_trimmed1 (mso : List (List ℕ)) :
    (mask_trimmed1 mso).length = mso.length := by
  rw [mask_trimmed1, length_orGrid, length_opening, length_mask_to_trim]

theorem gWidth_mask_trimmed1 (mso : List (List ℕ)) (h : mso.length ≠ 0) :
    gWidth (mask_trimmed1 mso) = gWidth mso := by
  rw [mask_trimmed1,
    gWidth_orGrid _ _ (by rw [length_opening, length_mask_to_trim]; exact h),
    gWidth_opening _ _ (by rw [length_mask_to_trim]; exact h),
    gWidth_mask_to_trim _ h]

theorem length_mask_trimmed2 (mso : List (List ℕ)) :
    (mask_trimmed2 mso).length = mso.length := by
  rw [mask_trimmed2, length_orGrid, length_binary_erosion, length_mask_trimmed1]

theorem gWidth_mask_trimmed2 (mso : List (List ℕ)) (h : mso.length ≠ 0) :
    gWidth (mask_trimmed2 mso) = gWidth mso := by
  rw [mask_trimmed2,
    gWidth_orGrid _ _ (by rw [length_binary_erosion, length_mask_trimmed1]; exact h),
    gWidth_binary_erosion _ _ (by rw [length_mask_trimmed1]; exact h),
    gWidth_mask_trimmed1 _ h]

theorem posGrid_val (m : List (List ℕ)) (r c : ℕ) (hr : r < m.length)
    (hc : c < gWidth m) :
    getD2 (posGrid m) false r c = decide (0 < getD2 m 0 r c) :=
  getD2_build _ _ _ _ _ _ hr hc

theorem sentinelGrid_val (m : List (List ℕ)) (r c : ℕ) (hr : r < m.length)
    (hc : c < gWidth m) :
    getD2 (sentinelGrid m) false r c = decide (getD2 m 0 r c = 255) :=
  getD2_build _ _ _ _ _ _ hr hc

/-- Under the no-narrow-gap condition, the passage count is 0 everywhere. -/
theorem passages_zero (ms : List (List ℕ)) (hgap : gapFree ms) (r c : ℕ)
    (hr : r < ms.length) (hc : c < gWidth ms) :
    getD2 (passagesGrid ms) 0 r c = 0 := by
  rw [passagesGrid, getD2_build _ _ _ _ _ _ hr hc]
  apply List.sum_eq_zero
  intro x hx
  rw [List.mem_map] at hx
  obtain ⟨i, hi, rfl⟩ := hx
  rw [List.mem_range] at hi
  rw [if_neg]
  rintro ⟨hsmall, hposs⟩
  rw [possibleGrid, getD2_build _ _ _ _ _ _ hr hc, decide_eq_true_iff] at hposs
  exact hgap r hr c hc ⟨i, hi, hsmall, hposs⟩

theorem mask_to_trim_val (mso : List (List ℕ)) (hgap : gapFree (zeroSentinel mso))
    (r c : ℕ) (hr : r < mso.length) (hc : c < gWidth mso) :
    getD2 (mask_to_trim mso) false r c = getD2 (posGrid mso) false r c := by
  have h0 : mso.length ≠ 0 := by omega
  rw [mask_to_trim, orGrid, length_posGrid, gWidth_posGrid _ h0,
    getD2_build _ _ _ _ _ _ hr hc]
  have hz : getD2 (gtOneGrid (passagesGrid (zeroSentinel mso))) false r c = false := by
    have hl : (passagesGrid (zeroSentinel mso)).length = mso.length := by
      rw [length_passagesGrid, length_zeroSentinel]
    have hw : gWidth (passagesGrid (zeroSentinel mso)) = gWidth mso := by
      rw [gWidth_passagesGrid _ (by rw [length_zeroSentinel]; exact h0),
        gWidth_zeroSentinel _ h0]
    rw [gtOneGrid, hl, hw, getD2_build _ _ _ _ _ _ hr hc,
      passages_zero _ hgap r c (by rw [length_zeroSentinel]; exact hr)
        (by rw [gWidth_zeroSentinel _ h0]; exact hc)]
    rfl
  rw [hz, Bool.or_false]

theorem mask_trimmed1_val (mso : List (List ℕ)) (hgap : gapFree (zeroSentinel mso))
    (r c : ℕ) (hr : r < mso.length) (hc : c < gWidth mso) :
    getD2 (mask_trimmed1 mso) false r c = getD2 (posGrid mso) false r c := by
  have h0 : mso.length ≠ 0 := by omega
  rw [mask_trimmed1, orGrid, length_opening, length_mask_to_trim,
    gWidth_opening _ _ (by rw [length_mask_to_trim]; exact h0),
    gWidth_mask_to_trim _ h0, getD2_build _ _ _ _ _ _ hr hc]
  apply or_absorb_val
  intro hop
  have hsub := opening_subset 10 (mask_to_trim mso) r c
    (by rw [length_mask_to_trim]; exact hr)
    (by rw [gWidth_mask_to_trim _ h0]; exact hc) hop
  rw [mask_to_trim_val mso hgap r c hr hc] at hsub
  exact hsub

theorem mask_trimmed2_val (mso : List (List ℕ)) (hgap : gapFree (zeroSentinel mso))
    (r c : ℕ) (hr : r < mso.length) (hc : c < gWidth mso) :
    getD2 (mask_trimmed2 mso) false r c = getD2 (posGrid mso) false r c := by
  have h0 : mso.length ≠ 0 := by omega
  rw [mask_trimmed2, orGrid, length_binary_erosion, length_mask_trimmed1,
    gWidth_binary_erosion _ _ (by rw [length_mask_trimmed1]; exact h0),
    gWidth_mask_trimmed1 _ h0, getD2_build _ _ _ _ _ _ hr hc]
  apply or_absorb_val
  intro her
  rw [binary_erosion, getD2_build _ _ _ _ _ _
    (by rw [length_mask_trimmed1]; exact hr)
    (by rw [gWidth_mask_trimmed1 _ h0]; exact hc)] at her
  have hsub := erodeVal_subset 5 (mask_trimmed1 mso) r c
    (by rw [length_mask_trimmed1]; exact hr)
    (by rw [gWidth_mask_trimmed1 _ h0]; exact hc) her
  rw [mask_trimmed1_val mso hgap r c hr hc] at hsub
  exact hsub

/-- The twice-re-unioned grid fed to the closing step equals the original
foreground under the no-gap condition. -/
theorem mask_trimmed2_eq (mso : List (List ℕ)) (hgap : gapFree (zeroSentinel mso))
    (h0 : mso.length ≠ 0) : mask_trimmed2 mso = posGrid mso := by
  have hlen : (binary_erosion 5 (mask_trimmed1 mso)).length = mso.length := by
    rw [length_binary_erosion, length_mask_trimmed1]
  have h1 : (mask_trimmed1 mso).length ≠ 0 := by
    rw [length_mask_trimmed1]; exact h0
  have hwid : gWidth (binary_erosion 5 (mask_trimmed1 mso)) = gWidth mso := by
    rw [gWidth_binary_erosion _ _ h1, gWidth_mask_trimmed1 _ h0]
  have hpg : posGrid mso = build mso.length (gWidth mso)
      (fun r c => decide (0 < getD2 mso 0 r c)) := rfl
  rw [mask_trimmed2, orGrid, hlen, hwid]
  refine Eq.trans ?_ hpg.symm
  apply build_congr
  intro r hr c hc
  have habs : (getD2 (binary_erosion 5 (mask_trimmed1 mso)) false r c ||
      getD2 (posGrid mso) false r c) = getD2 (posGrid mso) false r c := by
    apply or_absorb_val
    intro her
    rw [binary_erosion, getD2_build _ _ _ _ _ _
      (by rw [length_mask_trimmed1]; exact hr)
      (by rw [gWidth_mask_trimmed1 _ h0]; exact hc)] at her
    have hsub := erodeVal_subset 5 (mask_trimmed1 mso) r c
      (by rw [length_mask_trimmed1]; exact hr)
      (by rw [gWidth_mask_trimmed1 _ h0]; exact hc) her
    rw [mask_trimmed1_val mso hgap r c hr hc] at hsub
    exact hsub
  rw [habs, posGrid_val _ _ _ hr hc]

theorem mask_trimmed3_val (mso : List (List ℕ)) (hgap : gapFree (zeroSentinel mso))
    (hclose : closingStable mso) (r c : ℕ) (hr : r < mso.length)
    (hc : c < gWidth mso) :
    getD2 (mask_trimmed3 mso) false r c = getD2 (posGrid mso) false r c := by
  have h0 : mso.length ≠ 0 := by omega
  rw [mask_trimmed3, mask_trimmed2_eq mso hgap h0, orGrid, length_closing,
    length_posGrid, gWidth_closing _ _ (by rw [length_posGrid]; exact h0),
    gWidth_posGrid _ h0, getD2_build _ _ _ _ _ _ hr hc]
  exact or_absorb_val (hclose r hr c hc)

theorem mask_trimmed3_true_of_pos (mso : List (List ℕ)) (r c : ℕ)
    (hr : r < mso.length) (hc : c < gWidth mso) (hpos : 0 < getD2 mso 0 r c) :
    getD2 (mask_trimmed3 mso) false r c = true := by
  have h0 : mso.length ≠ 0 := by omega
  rw [mask_trimmed3, orGrid, length_closing, length_mask_trimmed2,
    gWidth_closing _ _ (by rw [length_mask_trimmed2]; exact h0),
    gWidth_mask_trimmed2 _ h0, getD2_build _ _ _ _ _ _ hr hc,
    posGrid_val _ _ _ hr hc, decide_eq_true hpos, Bool.or_true]

theorem fill_gaps_val (mso : List (List ℕ)) (r c : ℕ) (hr : r < mso.length)
    (hc : c < gWidth mso) :
    getD2 (fill_gaps_between_cells mso) 0 r c =
      ((getD2 (expand_labels (zeroSentinel mso) 250) 0 r c : ℕ) : ℤ) *
        getD2 (to_divide mso) 0 r c := by
  have h0 : mso.length ≠ 0 := by omega
  have hl : (expand_labels (zeroSentinel mso) 250).length = mso.length := by
    rw [expand_labels, length_build, length_zeroSentinel]
  have hw : gWidth (expand_labels (zeroSentinel mso) 250) = gWidth mso := by
    rw [expand_labels, gWidth_build _ _ _ (by rw [length_zeroSentinel]; exact h0),
      gWidth_zeroSentinel _ h0]
  rw [fill_gaps_between_cells, mulGrid, hl, hw, getD2_build _ _ _ _ _ _ hr hc]

/-- C2 (amended): (i) every pixel that carries a clean single label in the
input is 0 in the correction grid; (ii) for a mask with no sentinel
pixels, no narrow gaps between regions, and whose foreground the disk(2)
closing does not enlarge (no narrow single-region concavities — the extra
condition the counterexample forces), the correction grid is all-zero. -/
theorem C2_resolver_amended :
    (∀ (mso : List (List ℕ)) (r c : ℕ), r < mso.length → c < gWidth mso →
      getD2 mso 0 r c ≠ 0 → getD2 mso 0 r c ≠ 255 →
      getD2 (fill_gaps_between_cells mso) 0 r c = 0) ∧
    (∀ mso : List (List ℕ), sentinelFree mso → gapFree (zeroSentinel mso) →
      closingStable mso → ∀ r c : ℕ, r < mso.length → c < gWidth mso →
      getD2 (fill_gaps_between_cells mso) 0 r c = 0) := by
  constructor
  · intro mso r c hr hc hpos hsent
    rw [fill_gaps_val mso r c hr hc]
    have htd : getD2 (to_divide mso) 0 r c = 0 := by
      rw [to_divide, getD2_build _ _ _ _ _ _ hr hc,
        mask_trimmed3_true_of_pos mso r c hr hc (by omega),
        posGrid_val _ _ _ hr hc, sentinelGrid_val _ _ _ hr hc,
        decide_eq_true (show 0 < getD2 mso 0 r c by omega),
        decide_eq_false hsent]
      norm_num
    rw [htd, mul_zero]
  · intro mso hsent hgap hclose r c hr hc
    rw [fill_gaps_val mso r c hr hc]
    have htd : getD2 (to_divide mso) 0 r c = 0 := by
      rw [to_divide, getD2_build _ _ _ _ _ _ hr hc,
        mask_trimmed3_val mso hgap hclose r c hr hc, posGrid_val _ _ _ hr hc,
        sentinelGrid_val _ _ _ hr hc, decide_eq_false (hsent r hr c hc)]
      cases hd : decide (0 < getD2 mso 0 r c) <;> simp
    rw [htd, mul_zero]

/-- A mask with a single region never has a narrow gap between two
distinct regions: the 10-px ring sum is at most 1. -/
theorem gapFree_of_single_region (ms : List (List ℕ)) (h : gridMax ms ≤ 1) :
    gapFree ms := by
  intro r hr c hc hex
  obtain ⟨i, hi, hsm, hsum⟩ := hex
  have h1 : gridMax ms = 1 := by omega
  rw [bigRingSum, h1] at hsum
  have hrange : List.range 1 = [0] := rfl
  rw [hrange, List.map_cons, List.map_nil, List.sum_cons, List.sum_nil,
    add_zero] at hsum
  have hb : bigRingVal ms (0 + 1) r c ≤ 1 := by
    rw [bigRingVal]
    split_ifs <;> norm_num
  omega

/-- A 5×5 test mask: one ring-shaped region (label 1) with a one-pixel
hole at its centre — a narrow concavity that `closing(disk 2)` fills. -/
def cexMask : List (List ℕ) :=
  [[0, 0, 0, 0, 0],
   [0, 1, 1, 1, 0],
   [0, 1, 0, 1, 0],
   [0, 1, 1, 1, 0],
   [0, 0, 0, 0, 0]]

/-- The foreground of `cexMask` as a boolean grid. -/
def cexFg : List (List Bool) :=
  [[false, false, false, false, false],
   [false, true, true, true, false],
   [false, true, false, true, false],
   [false, true, true, true, false],
   [false, false, false, false, false]]

def allTrue5 : List (List Bool) :=
  [[true, true, true, true, true],
   [true, true, true, true, true],
   [true, true, true, true, true],
   [true, true, true, true, true],
   [true, true, true, true, true]]

def allFalse5 : List (List Bool) :=
  [[false, false, false, false, false],
   [false, false, false, false, false],
   [false, false, false, false, false],
   [false, false, false, false, false],
   [false, false, false, false, false]]

/-- C2 (claim as stated is false): `cexMask` has no sentinel pixel and no
narrow gap between two regions (it has only one region), yet the
Gap/Overlap Resolver does not return an all-zero grid: the morphological
closing by disk(2), re-unioned with the foreground, fills the one-pixel
concavity at (2,2), so the correction grid assigns label 1 there. -/
theorem C2_counterexample :
    sentinelFree cexMask ∧ gapFree (zeroSentinel cexMask) ∧
      getD2 (fill_gaps_between_cells cexMask) 0 2 2 = 1 := by
  have hgap : gapFree (zeroSentinel cexMask) :=
    gapFree_of_single_region _ (by decide)
  refine ⟨by unfold sentinelFree; decide, hgap, ?_⟩
  have hzs : zeroSentinel cexMask = cexMask := by decide
  rw [fill_gaps_val cexMask 2 2 (by decide) (by decide)]
  have hexp : getD2 (expand_labels (zeroSentinel cexMask) 250) 0 2 2 = 1 := by
    rw [hzs]
    decide
  have hmt2 : mask_trimmed2 cexMask = posGrid cexMask :=
    mask_trimmed2_eq cexMask hgap (by decide)
  have hpos : posGrid cexMask = cexFg := by decide
  have hdil : binary_dilation 2 cexFg = allTrue5 := by decide
  have hero : binary_erosion 2 allTrue5 = allTrue5 := by decide
  have hsent : sentinelGrid cexMask = allFalse5 := by decide
  have hmt3 : mask_trimmed3 cexMask = orGrid allTrue5 cexFg := by
    rw [mask_trimmed3, hmt2, hpos, closing, hdil, hero]
  have hor : orGrid allTrue5 cexFg = allTrue5 := by decide
  have htd : getD2 (to_divide cexMask) 0 2 2 = 1 := by
    rw [to_divide, getD2_build _ _ _ _ _ _ (by decide) (by decide), hmt3, hor,
      hpos, hsent]
    decide
  rw [hexp, htd]
  norm_num

/-- A 5×5 test mask: a single one-pixel region at the centre, whose
disk(2) closing adds nothing. -/
def blockMask : List (List ℕ) :=
  [[0, 0, 0, 0, 0],
   [0, 0, 0, 0, 0],
   [0, 0, 1, 0, 0],
   [0, 0, 0, 0, 0],
   [0, 0, 0, 0, 0]]

def blockFg : List (List Bool) :=
  [[false, false, false, false, false],
   [false, false, false, false, false],
   [false, false, true, false, false],
   [false, false, false, false, false],
   [false, false, false, false, false]]

/-- disk(2) dilation of the single centre pixel. -/
def blockDil : List (List Bool) :=
  [[false, false, true, false, false],
   [false, true, true, true, false],
   [true, true, true, true, true],
   [false, true, true, true, false],
   [false, false, true, false, false]]

/-- Witness for `C2_resolver_amended`: part (i) applied to the cleanly
labelled pixel (2,1) of `cexMask`, and part (ii) applied to `blockMask`,
which satisfies all three hypotheses. -/
theorem C2_resolver_witness :
    getD2 (fill_gaps_between_cells cexMask) 0 2 1 = 0 ∧
      getD2 (fill_gaps_between_cells blockMask) 0 0 0 = 0 := by
  constructor
  · exact C2_resolver_amended.1 cexMask 2 1 (by decide) (by decide) (by decide)
      (by decide)
  · have hposB : posGrid blockMask = blockFg := by decide
    have hdilB : binary_dilation 2 blockFg = blockDil := by decide
    have heroB : binary_erosion 2 blockDil = blockFg := by decide
    have hclose : closingStable blockMask := by
      intro r hr c hc h
      rw [closing, hposB, hdilB, heroB] at h
      rw [hposB]
      exact h
    exact C2_resolver_amended.2 blockMask (by unfold sentinelFree; decide)
      (gapFree_of_single_region _ (by decide)) hclose 0 0 (by decide) (by decide)

/-! ### Angular Ring Partitioner: `divide_cell_outside_ring`
(source lines 220-273)

K-means (sklearn) is one of the spec's black-box collaborators; its output
labelling of the seed points enters the embedding as an oracle function
`labels` on seed-point indices.  `scipy.spatial.distance_matrix` yields
Euclidean distances; `np.argmin` with its first-index tie-breaking over
them coincides with the argmin of the squared distances, which keeps the
embedding in ℚ. -/

/-- `np.nonzero` order: row-major coordinates of the true pixels. -/
def nonzeroPixels (g : List (List Bool)) : List (ℕ × ℕ) :=
  (allPixels g.length (gWidth g)).filter fun rc => getD2 g false rc.1 rc.2

/-- `seed_perim_image` (lines 223-230): erosion by disk(rt) minus its
further erosion by disk(1), as a row-major point list. -/
def seedPoints (cell : List (List Bool)) (rt : ℕ) : List (ℕ × ℕ) :=
  nonzeroPixels (build cell.length (gWidth cell) fun r c =>
    getD2 (erosion rt cell) false r c &&
      !getD2 (erosion 1 (erosion rt cell)) false r c)

/-- `image_ring` (lines 244-247): cell minus its erosion by disk(rt), as a
row-major point list. -/
def ringPoints (cell : List (List Bool)) (rt : ℕ) : List (ℕ × ℕ) :=
  nonzeroPixels (build cell.length (gWidth cell) fun r c =>
    getD2 cell false r c && !getD2 (erosion rt cell) false r c)

/-- `center_point_list[i]` (lines 234-241): the mean of the seed points
carrying K-means label `i`. -/
def clusterCenter (pts : List (ℕ × ℕ)) (labels : ℕ → ℕ) (i : ℕ) : ℚ × ℚ :=
  let sel := (pts.enum.filter fun pj => labels pj.1 = i).map Prod.snd
  ((sel.map fun p => ((p.1 : ℕ) : ℚ)).sum / sel.length,
   (sel.map fun p => ((p.2 : ℕ) : ℚ)).sum / sel.length)

/-- `np.argmin` helper: index of the first minimum so far. -/
def argminAux (best : ℚ) (bestIdx idx : ℕ) : List ℚ → ℕ
  | [] => bestIdx
  | x :: t =>
    if x < best then argminAux x idx (idx + 1) t
    else argminAux best bestIdx (idx + 1) t

/-- `np.argmin`: index of the first minimum of the list. -/
def argminIdx : List ℚ → ℕ
  | [] => 0
  | x :: t => argminAux x 0 1 t

/-- Squared Euclidean distance from a pixel to a centroid. -/
def sqDist (p : ℕ × ℕ) (q : ℚ × ℚ) : ℚ :=
  (((p.1 : ℕ) : ℚ) - q.1) ^ 2 + (((p.2 : ℕ) : ℚ) - q.2) ^ 2

/-- `points_array` with its `cluster_identity` column (lines 249-255):
each ring pixel with the index of its nearest cluster centroid. -/
def assignSeg (cell : List (List Bool)) (rt k : ℕ) (labels : ℕ → ℕ) :
    List (ℕ × ℕ × ℕ) :=
  (ringPoints cell rt).map fun p =>
    (p.1, p.2, argminIdx ((List.range k).map fun i =>
      sqDist p (clusterCenter (seedPoints cell rt) labels i)))

/-- `centroid_array` row `x` (line 261): mean of the ring points assigned
to segment `x`. -/
def segCentroid (cell : List (List Bool)) (rt k : ℕ) (labels : ℕ → ℕ)
    (x : ℕ) : ℚ × ℚ :=
  let sel := (assignSeg cell rt k labels).filter fun p => p.2.2 = x
  ((sel.map fun p => ((p.1 : ℕ) : ℚ)).sum / sel.length,
   (sel.map fun p => ((p.2.1 : ℕ) : ℚ)).sum / sel.length)

/-- `centroid_angle` (line 262): `arctan2(x - cell_center[1],
y - cell_center[0])` with `x` the mean row and `y` the mean column. -/
noncomputable def segAngle (cell : List (List Bool)) (cc : ℝ × ℝ) (rt k : ℕ)
    (labels : ℕ → ℕ) (x : ℕ) : ℝ :=
  np_arctan2 ((((segCentroid cell rt k labels x).1 : ℚ) : ℝ) - cc.2)
    ((((segCentroid cell rt k labels x).2 : ℚ) : ℝ) - cc.1)

/-- Line 265: negative centroid angles are shifted by `+2π`. -/
noncomputable def segAngleShifted (cell : List (List Bool)) (cc : ℝ × ℝ)
    (rt k : ℕ) (labels : ℕ → ℕ) (x : ℕ) : ℝ :=
  if segAngle cell cc rt k labels x < 0 then
    segAngle cell cc rt k labels x + 2 * Real.pi
  else segAngle cell cc rt k labels x

/-- `sort_values('centroid_angle')` (line 268): the segment ids sorted by
shifted centroid angle ascending.  pandas' unstable quicksort order on
exact ties is unspecified; a stable merge sort is used here, and no
theorem depends on the tie order. -/
noncomputable def sortedSegIds (cell : List (List Bool)) (cc : ℝ × ℝ)
    (rt k : ℕ) (labels : ℕ → ℕ) : List ℕ :=
  (List.range k).mergeSort fun a b =>
    decide (segAngleShifted cell cc rt k labels a ≤
      segAngleShifted cell cc rt k labels b)

/-- Line 271: the new id of an old segment id is its position in the
sorted order. -/
noncomputable def newSegId (cell : List (List Bool)) (cc : ℝ × ℝ)
    (rt k : ℕ) (labels : ℕ → ℕ) (x : ℕ) : ℕ :=
  (sortedSegIds cell cc rt k labels).indexOf x

/-- Source lines 220-273: every ring pixel with its reordered segment id. -/
noncomputable def divide_cell_outside_ring (cell_image : List (List Bool))
    (cell_center : ℝ × ℝ) (ring_thickness segment_number : ℕ)
    (labels : ℕ → ℕ) : List (ℕ × ℕ × ℕ) :=
  (assignSeg cell_image ring_thickness segment_number labels).map fun p =>
    (p.1, p.2.1,
      newSegId cell_image cell_center ring_thickness segment_number labels p.2.2)

theorem argminAux_lt (n : ℕ) :
    ∀ (l : List ℚ) (best : ℚ) (bi i : ℕ), bi < n → i + l.length ≤ n →
      argminAux best bi i l < n
  | [], _, _, _, hbi, _ => hbi
  | x :: t, best, bi, i, hbi, hlen => by
    rw [argminAux]
    rw [List.length_cons] at hlen
    split_ifs
    · exact argminAux_lt n t x i (i + 1) (by omega) (by omega)
    · exact argminAux_lt n t best bi (i + 1) hbi (by omega)

theorem argminIdx_lt (l : List ℚ) (h : l ≠ []) : argminIdx l < l.length := by
  cases l with
  | nil => exact absurd rfl h
  | cons x t =>
    rw [argminIdx, List.length_cons]
    exact argminAux_lt _ t x 0 1 (by omega) (by omega)

theorem mem_sortedSegIds {cell : List (List Bool)} {cc : ℝ × ℝ} {rt k : ℕ}
    {labels : ℕ → ℕ} {x : ℕ} :
    x ∈ sortedSegIds cell cc rt k labels ↔ x < k := by
  rw [sortedSegIds, List.mem_mergeSort, List.mem_range]

theorem length_sortedSegIds (cell : List (List Bool)) (cc : ℝ × ℝ)
    (rt k : ℕ) (labels : ℕ → ℕ) :
    (sortedSegIds cell cc rt k labels).length = k := by
  rw [sortedSegIds, List.length_mergeSort, List.length_range]

theorem sortedSegIds_pairwise (cell : List (List Bool)) (cc : ℝ × ℝ)
    (rt k : ℕ) (labels : ℕ → ℕ) :
    (sortedSegIds cell cc rt k labels).Pairwise fun a b =>
      segAngleShifted cell cc rt k labels a ≤
        segAngleShifted cell cc rt k labels b := by
  have hp := @List.sorted_mergeSort ℕ
    (fun a b => decide (segAngleShifted cell cc rt k labels a ≤
      segAngleShifted cell cc rt k labels b))
    (fun a b c hab hbc => by
      rw [decide_eq_true_iff] at hab hbc
      rw [decide_eq_true_iff]
      exact le_trans hab hbc)
    (fun a b => by
      rw [Bool.or_eq_true, decide_eq_true_iff, decide_eq_true_iff]
      exact le_total _ _)
    (List.range k)
  rw [sortedSegIds]
  exact hp.imp fun h => by rwa [decide_eq_true_iff] at h

/-- C6: (i) dropping the segment-id column of the partitioner output
yields exactly the row-major list of ring-band pixels (the cell minus its
erosion by `ring_thickness`) — every ring pixel exactly once, each with a
single id; (ii) every id is below `segment_number`; (iii) the relabelling
`newSegId` is injective on ids below `segment_number`; (iv) ids are
assigned by rank of the shifted centroid angles: a smaller new id never
has a larger shifted angle; (v) all shifted angles lie in `[0, 2π)`.
The hypotheses record the K-means black-box contract (each of the
`segment_number` clusters receives at least one seed point) and
non-degeneracy (each segment receives at least one ring pixel, so the
rational centroid means match `np.mean`). -/
theorem C6_ring_partitioner (cell : List (List Bool)) (cell_center : ℝ × ℝ)
    (rt k : ℕ) (labels : ℕ → ℕ)
    (hk : 1 ≤ k)
    (horacle : ∀ i < k, ∃ j < (seedPoints cell rt).length, labels j = i)
    (hseg : ∀ i < k, ∃ p ∈ assignSeg cell rt k labels, p.2.2 = i) :
    ((divide_cell_outside_ring cell cell_center rt k labels).map
        fun p => (p.1, p.2.1)) = ringPoints cell rt ∧
    (∀ p ∈ divide_cell_outside_ring cell cell_center rt k labels, p.2.2 < k) ∧
    (∀ a b : ℕ, a < k → b < k →
      newSegId cell cell_center rt k labels a =
        newSegId cell cell_center rt k labels b → a = b) ∧
    (∀ a b : ℕ, a < k → b < k →
      newSegId cell cell_center rt k labels a <
        newSegId cell cell_center rt k labels b →
      segAngleShifted cell cell_center rt k labels a ≤
        segAngleShifted cell cell_center rt k labels b) ∧
    (∀ x : ℕ, 0 ≤ segAngleShifted cell cell_center rt k labels x ∧
      segAngleShifted cell cell_center rt k labels x < 2 * Real.pi) := by
  refine ⟨?_, ?_, ?_, ?_, ?_⟩
  · rw [divide_cell_outside_ring, assignSeg, List.map_map, List.map_map]
    exact List.map_id'' (fun p => rfl) _
  · intro p hp
    rw [divide_cell_outside_ring, List.mem_map] at hp
    obtain ⟨q, hq, rfl⟩ := hp
    dsimp only
    rw [newSegId]
    have hmem : q.2.2 ∈ sortedSegIds cell cell_center rt k labels := by
      rw [mem_sortedSegIds]
      rw [assignSeg, List.mem_map] at hq
      obtain ⟨rp, hrp, rfl⟩ := hq
      dsimp only
      have hne : ((List.range k).map fun i =>
          sqDist rp (clusterCenter (seedPoints cell rt) labels i)) ≠ [] := by
        apply List.ne_nil_of_length_pos
        rw [List.length_map, List.length_range]
        omega
      have hlt := argminIdx_lt _ hne
      rwa [List.length_map, List.length_range] at hlt
    have := List.indexOf_lt_length.mpr hmem
    rwa [length_sortedSegIds] at this
  · intro a b ha hb heq
    exact (List.indexOf_inj ((@mem_sortedSegIds cell cell_center rt k labels a).mpr ha)
      ((@mem_sortedSegIds cell cell_center rt k labels b).mpr hb)).mp heq
  · intro a b ha hb hlt
    have hma := (@mem_sortedSegIds cell cell_center rt k labels a).mpr ha
    have hmb := (@mem_sortedSegIds cell cell_center rt k labels b).mpr hb
    have hla : newSegId cell cell_center rt k labels a <
        (sortedSegIds cell cell_center rt k labels).length :=
      List.indexOf_lt_length.mpr hma
    have hlb : newSegId cell cell_center rt k labels b <
        (sortedSegIds cell cell_center rt k labels).length :=
      List.indexOf_lt_length.mpr hmb
    have hp := sortedSegIds_pairwise cell cell_center rt k labels
    rw [List.pairwise_iff_get] at hp
    have hrel := hp ⟨newSegId cell cell_center rt k labels a, hla⟩
      ⟨newSegId cell cell_center rt k labels b, hlb⟩ hlt
    rwa [show (sortedSegIds cell cell_center rt k labels).get
        ⟨newSegId cell cell_center rt k labels a, hla⟩ = a from
        List.indexOf_get hla,
      show (sortedSegIds cell cell_center rt k labels).get
        ⟨newSegId cell cell_center rt k labels b, hlb⟩ = b from
        List.indexOf_get hlb] at hrel
  · intro x
    have h1 : segAngle cell cell_center rt k labels x ≤ Real.pi := by
      rw [segAngle, np_arctan2]
      exact Complex.arg_le_pi _
    have h2 : -Real.pi < segAngle cell cell_center rt k labels x := by
      rw [segAngle, np_arctan2]
      exact Complex.neg_pi_lt_arg _
    have hpi := Real.pi_pos
    rw [segAngleShifted]
    split_ifs with h <;> constructor <;> linarith

/-- An 8×8 test cell: a 4×4 square block. -/
def wCell : List (List Bool) :=
  [[false, false, false, false, false, false, false, false],
   [false, false, false, false, false, false, false, false],
   [false, false, true, true, true, true, false, false],
   [false, false, true, true, true, true, false, false],
   [false, false, true, true, true, true, false, false],
   [false, false, true, true, true, true, false, false],
   [false, false, false, false, false, false, false, false],
   [false, false, false, false, false, false, false, false]]

/-- Erosion of `wCell` by disk(1): the inner 2×2 block. -/
def wE1 : List (List Bool) :=
  [[false, false, false, false, false, false, false, false],
   [false, false, false, false, false, false, false, false],
   [false, false, false, false, false, false, false, false],
   [false, false, false, true, true, false, false, false],
   [false, false, false, true, true, false, false, false],
   [false, false, false, false, false, false, false, false],
   [false, false, false, false, false, false, false, false],
   [false, false, false, false, false, false, false, false]]

def allFalse8 : List (List Bool) :=
  [[false, false, false, false, false, false, false, false],
   [false, false, false, false, false, false, false, false],
   [false, false, false, false, false, false, false, false],
   [false, false, false, false, false, false, false, false],
   [false, false, false, false, false, false, false, false],
   [false, false, false, false, false, false, false, false],
   [false, false, false, false, false, false, false, false],
   [false, false, false, false, false, false, false, false]]

theorem wE1_eq : erosion 1 wCell = wE1 := by decide

theorem wE2_eq : erosion 1 wE1 = allFalse8 := by decide

theorem wSeed_eq : seedPoints wCell 1 = [(3, 3), (3, 4), (4, 3), (4, 4)] := by
  rw [seedPoints, wE1_eq, wE2_eq]
  decide

theorem wRing_eq : ringPoints wCell 1 =
    [(2, 2), (2, 3), (2, 4), (2, 5), (3, 2), (3, 5),
     (4, 2), (4, 5), (5, 2), (5, 3), (5, 4), (5, 5)] := by
  rw [ringPoints, wE1_eq]
  decide

/-- Witness for `C6_ring_partitioner`: the 8×8 square cell, ring
thickness 1 and a single segment (every ring pixel is assigned the single
cluster, so all hypotheses hold concretely). -/
theorem C6_ring_partitioner_witness :
    ((divide_cell_outside_ring wCell (0, 0) 1 1 (fun _ => 0)).map
        fun p => (p.1, p.2.1)) = ringPoints wCell 1 := by
  have horacle : ∀ i < 1, ∃ j < (seedPoints wCell 1).length,
      (fun _ : ℕ => 0) j = i := by
    intro i hi
    refine ⟨0, ?_, show (0 : ℕ) = i by omega⟩
    rw [wSeed_eq]
    norm_num
  have hseg : ∀ i < 1, ∃ p ∈ assignSeg wCell 1 1 (fun _ => 0), p.2.2 = i := by
    intro i hi
    have hi0 : i = 0 := by omega
    subst hi0
    have hmem : ((2 : ℕ), (2 : ℕ)) ∈ ringPoints wCell 1 := by
      rw [wRing_eq]
      decide
    exact ⟨_, List.mem_map_of_mem _ hmem, rfl⟩
  exact (C6_ring_partitioner wCell (0, 0) 1 1 (fun _ => 0)
    (le_refl 1) horacle hseg).1

/-- Witness for `C4_scorer_symmetry_periodicity_amended` at `(0, π/2)`. -/
theorem C4_scorer_witness :
    calculate_perpendicular_index (0 + Real.pi) (Real.pi / 2) =
      calculate_perpendicular_index 0 (Real.pi / 2) :=
  C4_scorer_symmetry_periodicity_amended.2.2.1 0 (Real.pi / 2) (by
    have hpi := Real.pi_pos
    have : |(0 : ℝ) - Real.pi / 2| = Real.pi / 2 := by
      rw [abs_sub_comm, sub_zero, abs_of_nonneg (by positivity)]
    rw [this]; linarith)

/-! ### Interior-point sampling (`get_internal_points`, src lines 368–475) -/

/-- `np.linspace a b n`: `n` evenly spaced samples from `a` to `b` with the
endpoint included (`n = 1` gives `[a]`, `n = 0` gives `[]`). -/
noncomputable def linspace (a b : ℝ) : ℕ → List ℝ
  | 0 => []
  | 1 => [a]
  | n + 2 => (List.range (n + 2)).map fun i => a + (b - a) * i / (n + 1)

/-- Truncation toward zero, as Python `int()` / numpy `astype(int)`. -/
noncomputable def truncInt (x : ℝ) : ℤ := if 0 ≤ x then ⌊x⌋ else ⌈x⌉

/-- `sk_line_profile_coordinates src dst linewidth` (src lines 368–418):
the pair `(perp_rows, perp_cols)`, each of shape `length × linewidth`,
where `length = int(np.ceil(np.hypot(d_row, d_col) + 1))`. -/
noncomputable def sk_line_profile_coordinates (src dst : ℝ × ℝ)
    (linewidth : ℤ) : List (List ℝ) × List (List ℝ) :=
  let src_row := src.1
  let src_col := src.2
  let dst_row := dst.1
  let dst_col := dst.2
  let d_row := dst_row - src_row
  let d_col := dst_col - src_col
  let theta := np_arctan2 d_row d_col
  let len := (⌈Real.sqrt (d_row ^ 2 + d_col ^ 2) + 1⌉).toNat
  let line_col := linspace src_col dst_col len
  let line_row := linspace src_row dst_row len
  let col_width := ((linewidth : ℝ) - 1) * Real.sin (-theta) / 2
  let row_width := ((linewidth : ℝ) - 1) * Real.cos theta / 2
  let perp_rows := line_row.map fun row_i =>
    linspace (row_i - row_width) (row_i + row_width) linewidth.toNat
  let perp_cols := line_col.map fun col_i =>
    linspace (col_i - col_width) (col_i + col_width) linewidth.toNat
  (perp_rows, perp_cols)

/-- One row of the output table of `get_internal_points`: integer
coordinates, first-occurrence flag (column `uniqe` in the source), layer
index and order within the layer. -/
structure IPRow where
  r : ℤ
  c : ℤ
  uniq : Bool
  layer : ℕ
  ord : ℕ

/-- The two kinds of ordinary return value of `get_internal_points`: the
error string the code returns as a plain value, or the coordinate table. -/
inductive GIPResult where
  | errString (s : String)
  | table (rows : List IPRow)

/-- `get_internal_points vert line_width` (src lines 422–475).  A raised
Python exception would be `Except.error`; both the error-message string of
line 432 and the table of line 475 are ordinary returns, hence `Except.ok`. -/
noncomputable def get_internal_points (vert : List (ℝ × ℝ))
    (line_width : ℤ) : Except String GIPResult :=
  if line_width < 3 then
    Except.ok (GIPResult.errString "Error - line width has to be at least 3.")
  else
    let segs := (List.range vert.length).map fun i =>
      let p0 := vert.getD i (0, 0)
      let p1 := if i = vert.length - 1 then vert.getD 0 (0, 0)
                else vert.getD (i + 1) (0, 0)
      sk_line_profile_coordinates p0 p1 line_width
    let coord_line_x := segs.flatMap fun s => s.1
    let coord_line_y := segs.flatMap fun s => s.2
    let lw := line_width.toNat
    let start_including := lw / 2
    let tableRows := (List.range (lw - start_including)).flatMap fun k =>
      let i := start_including + k
      let layerRows : List (ℤ × ℤ) :=
        (List.range coord_line_x.length).map fun n =>
          (truncInt ((coord_line_x.getD n []).getD i 0),
           truncInt ((coord_line_y.getD n []).getD i 0))
      (List.range layerRows.length).map fun n =>
        { r := (layerRows.getD n (0, 0)).1
          c := (layerRows.getD n (0, 0)).2
          uniq := decide ((layerRows.getD n (0, 0)) ∉ layerRows.take n)
          layer := k
          ord := n : IPRow }
    Except.ok (GIPResult.table tableRows)

/-- C8 counterexample: called with line width 2 on a one-vertex polygon, the
interior-point sampler hands the error message back as an ordinary
`Except.ok` value — no exception (`Except.error`) is raised, contrary to the
claim that an invalid parameter is signalled as an error rather than
returned as an ordinary result value. -/
theorem C8_counterexample :
    get_internal_points [((0 : ℝ), (0 : ℝ))] 2 =
      Except.ok (GIPResult.errString
        "Error - line width has to be at least 3.") := by
  rw [get_internal_points, if_pos (by norm_num : (2 : ℤ) < 3)]

/-- C8 (corrected): whenever `line_width < 3` the guard does fire
immediately, before any computation — but the invalid parameter is reported
by returning the error string as an ordinary value (`Except.ok`), not by
raising an exception (`Except.error`). -/
theorem C8_error_signaling_amended (vert : List (ℝ × ℝ)) (line_width : ℤ)
    (h : line_width < 3) :
    get_internal_points vert line_width =
      Except.ok (GIPResult.errString
        "Error - line width has to be at least 3.") := by
  rw [get_internal_points, if_pos h]

/-- Witness for `C8_error_signaling_amended` at the empty vertex list and
line width 0. -/
theorem C8_error_signaling_witness :
    get_internal_points [] 0 =
      Except.ok (GIPResult.errString
        "Error - line width has to be at least 3.") :=
  C8_error_signaling_amended [] 0 (by norm_num)

end Cardio
